import Mathlib

/-!
A shallow embedding of `restore.go`.

`restore.go` is sequential glue over a package manager and the filesystem.
The embedding threads an explicit `World` (the filesystem name space and the
ordered history of every call the program made, with its result) through the
three functions of the source: `installBrewPackages`, `linkDotfiles` and
`main`.  Whatever the program cannot decide for itself (does a file open, does
`brew` exit with status zero, does `Lstat` or `RemoveAll` fail) is answered by
an `Env` of
oracles; every oracle sees the whole `World` at the moment of the call, so an
`Env` can express any assignment of outcomes to calls.

Strings are Lean strings (sequences of Unicode scalar values); paths are
compared as strings.
-/

namespace Restore

/-! ## Go library functions used by the program -/

/-- Go `unicode.IsSpace`: the Unicode White_Space property. -/
def isSpace (c : Char) : Bool :=
  let n := c.toNat
  (0x09 ≤ n && n ≤ 0x0d) || n == 0x20 || n == 0x85 || n == 0xa0 || n == 0x1680 ||
  (0x2000 ≤ n && n ≤ 0x200a) || n == 0x2028 || n == 0x2029 || n == 0x202f ||
  n == 0x205f || n == 0x3000

/-- Drop the leading white space of a character sequence. -/
def trimLeft : List Char → List Char
  | [] => []
  | c :: cs => if isSpace c then trimLeft cs else c :: cs

/-- Go `strings.TrimSpace`: all leading and trailing white space removed. -/
def TrimSpace (s : String) : String :=
  ⟨(trimLeft (trimLeft s.data).reverse).reverse⟩

/-- Cut a character sequence at every `/`; `acc` is the current element,
reversed. -/
def splitSlashAux : List Char → List Char → List (List Char)
  | [], acc => [acc.reverse]
  | c :: cs, acc =>
    if c = '/' then acc.reverse :: splitSlashAux cs [] else splitSlashAux cs (c :: acc)

/-- The elements of a path: the text between separators. -/
def splitSlash (p : List Char) : List (List Char) := splitSlashAux p []

/-- Go `strings.Join(elems, "/")` on character sequences. -/
def joinSlash : List (List Char) → List Char
  | [] => []
  | [a] => a
  | a :: b :: t => a ++ '/' :: joinSlash (b :: t)

/-- One element of `filepath.Clean`'s scan.  `st` is the output so far, last
element first.  Empty elements and `.` are dropped; `..` removes the last real
element, is dropped at the root, and is kept otherwise. -/
def cleanStep (rooted : Bool) (st : List (List Char)) (c : List Char) : List (List Char) :=
  if c = [] ∨ c = ['.'] then st
  else if c = ['.', '.'] then
    match st with
    | top :: rest => if top = ['.', '.'] then c :: st else rest
    | [] => if rooted then [] else [c]
  else c :: st

/-- The output elements of `filepath.Clean`, last element first. -/
def cleanStack (p : List Char) : List (List Char) :=
  (splitSlash p).foldl (cleanStep (p.head? = some '/')) []

/-- Go `filepath.Clean` (Unix) on character sequences. -/
def cleanChars (p : List Char) : List Char :=
  if p = [] then ['.']
  else if p.head? = some '/' then '/' :: joinSlash (cleanStack p).reverse
  else if cleanStack p = [] then ['.']
  else joinSlash (cleanStack p).reverse

/-- Go `filepath.Clean` (Unix). -/
def filepath_Clean (p : String) : String := ⟨cleanChars p.data⟩

/-- Go `filepath.Join` (Unix): leading empty elements are skipped, the rest is
joined with `/` and cleaned; no non-empty element gives the empty string. -/
def filepath_Join (elem : List String) : String :=
  match elem.dropWhile (fun e => e = "") with
  | [] => ""
  | es => ⟨cleanChars (joinSlash (es.map String.data))⟩

/-! ## The world -/

/-- What a path names. -/
inductive Node where
  | file
  | dir
  | symlink (target : String)
  deriving DecidableEq, Repr

/-- The filesystem name space: what each path names, if anything. -/
abbrev FS := String → Option Node

/-- An entry of a directory listing (`os.DirEntry`). -/
structure DirEntry where
  name : String
  isDir : Bool
  deriving DecidableEq, Repr

/-- An opened package list as `bufio.Scanner` delivers it: the lines in file
order, and the error that ended the scan, if any. -/
structure ScanFile where
  lines : List String
  err : Option String
  deriving DecidableEq, Repr

/-- Everything the program does to the outside, with the result it got
(`none` is Go's `nil` error). -/
inductive Event where
  | print (msg : String)
  | log (msg : String)
  | userHomeDir (err : Option String)
  | lookPath (file : String) (err : Option String)
  | openFile (path : String) (err : Option String)
  | closeFile (path : String)
  | run (name : String) (args : List String) (err : Option String)
  | readDir (path : String) (err : Option String)
  | mkdirAll (path : String) (err : Option String)
  | lstat (path : String) (err : Option String)
  | removeAll (path : String) (err : Option String)
  | symlink (oldname newname : String) (err : Option String)
  | exit (code : Nat)
  deriving DecidableEq, Repr

/-- The state threaded through the program: the filesystem and the history. -/
structure World where
  fs : FS
  trace : List Event

/-- The outcomes the program does not control.  Each oracle is asked with the
world as it is at the call. -/
structure Env where
  userHomeDir : World → Except String String
  lookPath : World → String → Except String String
  openFile : World → String → Except String ScanFile
  run : World → String → List String → Option String × FS
  readDir : World → String → Except String (List DirEntry)
  mkdirAll : World → String → Option (String × (String → Bool))
  lstat : World → String → Option String
  removeAll : World → String → Option (String × (String → Bool))
  symlink : World → String → String → Option String

/-- How a function of the program ends: it returns, or the process exits. -/
inductive Result where
  | returned (w : World)
  | exited (code : Nat) (w : World)

/-- The world a result carries. -/
def Result.world : Result → World
  | .returned w => w
  | .exited _ w => w

/-- Record one event. -/
def emit (e : Event) (w : World) : World :=
  { w with trace := w.trace ++ [e] }

/-- The text a directory's children start with. -/
def dirText (p : String) : List Char :=
  if p.data.getLast? = some '/' then p.data else p.data ++ ['/']

/-- Whether `q` lies strictly below the directory `p`. -/
def isBelow (p q : String) : Bool :=
  (dirText p).isPrefixOf q.data && q != p

/-- The name space after `p` and everything below it is removed. -/
def removeTree (p : String) (fs : FS) : FS :=
  fun q => if q = p ∨ isBelow p q = true then none else fs q

/-- The name space after a removal of `p` that failed part-way: the paths
below `p` marked by `gone` are removed, `p` itself stays. -/
def removeSome (p : String) (gone : String → Bool) (fs : FS) : FS :=
  fun q => if isBelow p q = true ∧ gone q = true then none else fs q

/-- The name space with `p` naming `n`. -/
def setNode (p : String) (n : Node) (fs : FS) : FS :=
  fun q => if q = p then some n else fs q

/-- The name space after `MkdirAll p`: `p` and the directories above it exist. -/
def makeDirs (p : String) (fs : FS) : FS :=
  fun q => if (q = p ∨ (q ≠ "" ∧ isBelow q p = true)) ∧ fs q = none then some Node.dir else fs q

/-- The name space after a `MkdirAll p` that failed part-way: the missing
directories above `p` marked by `made` exist, `p` itself is as it was. -/
def makeSome (p : String) (made : String → Bool) (fs : FS) : FS :=
  fun q => if (q ≠ "" ∧ isBelow q p = true ∧ made q = true) ∧ fs q = none then some Node.dir
    else fs q

/-- Go `fmt.Printf` / `fmt.Println`, with the formatted text. -/
def fmt_Printf (msg : String) (w : World) : World := emit (.print msg) w

/-- Go `log.Printf` / `log.Println`, with the formatted text. -/
def log_Printf (msg : String) (w : World) : World := emit (.log msg) w

/-- Go `log.Fatalf`: the message is logged and the process exits with status 1. -/
def log_Fatalf (msg : String) (w : World) : Result :=
  .exited 1 (emit (.exit 1) (emit (.log msg) w))

/-- Go `os.UserHomeDir`. -/
def os_UserHomeDir (env : Env) (w : World) : Except String String × World :=
  match env.userHomeDir w with
  | .ok h => (.ok h, emit (.userHomeDir none) w)
  | .error e => (.error e, emit (.userHomeDir (some e)) w)

/-- Go `exec.LookPath`. -/
def exec_LookPath (env : Env) (file : String) (w : World) : Except String String × World :=
  match env.lookPath w file with
  | .ok p => (.ok p, emit (.lookPath file none) w)
  | .error e => (.error e, emit (.lookPath file (some e)) w)

/-- Go `os.Open`, with the scanner's view of the file. -/
def os_Open (env : Env) (path : String) (w : World) : Except String ScanFile × World :=
  match env.openFile w path with
  | .ok f => (.ok f, emit (.openFile path none) w)
  | .error e => (.error e, emit (.openFile path (some e)) w)

/-- Go `exec.Command(name, args...).Run()`: the child runs to completion; a
non-zero exit status (or a failure to start) is the error. -/
def cmd_Run (env : Env) (name : String) (args : List String) (w : World) :
    Option String × World :=
  let r := env.run w name args
  (r.1, emit (.run name args r.1) { w with fs := r.2 })

/-- Go `os.ReadDir`. -/
def os_ReadDir (env : Env) (path : String) (w : World) :
    Except String (List DirEntry) × World :=
  match env.readDir w path with
  | .ok es => (.ok es, emit (.readDir path none) w)
  | .error e => (.error e, emit (.readDir path (some e)) w)

/-- Go `os.MkdirAll`. -/
def os_MkdirAll (env : Env) (path : String) (w : World) : Option String × World :=
  match env.mkdirAll w path with
  | none => (none, emit (.mkdirAll path none) { w with fs := makeDirs path w.fs })
  | some (e, made) =>
    (some e, emit (.mkdirAll path (some e)) { w with fs := makeSome path made w.fs })

/-- Go `os.Lstat`: a symbolic link is not followed.  It fails whenever the
environment says so (no search permission on the directory, for one), also on
a path that names something; otherwise it succeeds exactly when the path names
something. -/
def os_Lstat (env : Env) (path : String) (w : World) : Option String × World :=
  let err := match env.lstat w path with
    | some e => some e
    | none =>
      if (w.fs path).isSome then none
      else some ("lstat " ++ path ++ ": no such file or directory")
  (err, emit (.lstat path err) w)

/-- Go `os.RemoveAll`. -/
def os_RemoveAll (env : Env) (path : String) (w : World) : Option String × World :=
  match env.removeAll w path with
  | none => (none, emit (.removeAll path none) { w with fs := removeTree path w.fs })
  | some (e, gone) =>
    (some e, emit (.removeAll path (some e)) { w with fs := removeSome path gone w.fs })

/-- Go `os.Symlink`: fails whenever the environment says so, and when
`newname` already names something. -/
def os_Symlink (env : Env) (oldname newname : String) (w : World) : Option String × World :=
  let err := match env.symlink w oldname newname with
    | some e => some e
    | none =>
      if (w.fs newname).isSome then
        some ("symlink " ++ oldname ++ " " ++ newname ++ ": file exists")
      else none
  match err with
  | none => (none, emit (.symlink oldname newname none)
      { w with fs := setNode newname (.symlink oldname) w.fs })
  | some e => (some e, emit (.symlink oldname newname (some e)) w)

/-! ## The program -/

/-- The body of the scan loop of `installBrewPackages` (restore.go 34-51). -/
def installLine (env : Env) (installType : String) (args : List String)
    (w : World) (text : String) : World :=
  let packageName := TrimSpace text
  if packageName = "" then w
  else
    let w := fmt_Printf ("\nInstalling " ++ installType ++ ": " ++ packageName ++ "\n") w
    let cmdArgs := args ++ [packageName]
    match cmd_Run env "brew" cmdArgs w with
    | (some _, w) =>
      log_Printf ("Error installing " ++ packageName ++
        ". It may already be installed or there was another issue.") w
    | (none, w) => w

/-- The function `installBrewPackages` (restore.go 14-56). -/
def installBrewPackages (env : Env) (packagesFile : String) (isCask : Bool) (w : World) :
    World :=
  match os_Open env packagesFile w with
  | (.error err, w) =>
    log_Printf ("Warning: Could not open package list " ++ packagesFile ++ ": " ++ err ++
      ". Skipping.") w
  | (.ok file, w) =>
    let installType := if isCask then "cask" else "formula"
    let args := if isCask then ["install"] ++ ["--cask"] else ["install"]
    let w := fmt_Printf ("\n--- Installing Homebrew " ++ installType ++ "s ---\n") w
    let w := file.lines.foldl (installLine env installType args) w
    let w := match file.err with
      | some err => log_Printf ("Error reading package list " ++ packagesFile ++ ": " ++ err) w
      | none => w
    emit (.closeFile packagesFile) w

/-- The link step of the loop of `linkDotfiles` (restore.go 98-106). -/
def linkStep (env : Env) (configName sourcePath destPath : String) (w : World) : World :=
  let w := fmt_Printf ("  - Linking " ++ sourcePath ++ " -> " ++ destPath ++ "\n") w
  match os_Symlink env sourcePath destPath w with
  | (some err, w) => log_Printf ("  - Error: Failed to link " ++ configName ++ ". " ++ err ++ "\n") w
  | (none, w) => fmt_Printf ("  - Successfully linked " ++ configName ++ ".\n") w

/-- The body of the loop of `linkDotfiles` (restore.go 77-107). -/
def linkEntry (env : Env) (configSourceDir configDestDir : String)
    (w : World) (entry : DirEntry) : World :=
  if !entry.isDir then w
  else
    let configName := entry.name
    let sourcePath := filepath_Join [configSourceDir, configName]
    let destPath := filepath_Join [configDestDir, configName]
    let w := fmt_Printf ("Processing " ++ configName ++ "...\n") w
    match os_Lstat env destPath w with
    | (none, w) =>
      let w := fmt_Printf ("  - Removing existing target: " ++ destPath ++ "\n") w
      match os_RemoveAll env destPath w with
      | (some err, w) =>
        log_Printf ("  - Warning: Failed to remove existing destination " ++ destPath ++ ". " ++
          err ++ "\n") w
      | (none, w) => linkStep env configName sourcePath destPath w
    | (some _, w) => linkStep env configName sourcePath destPath w

/-- The function `linkDotfiles` (restore.go 59-108). -/
def linkDotfiles (env : Env) (dotfilesDir configDestDir : String) (w : World) : Result :=
  let configSourceDir := filepath_Join [dotfilesDir, "config"]
  let w := fmt_Printf "\n--- Starting Dotfile Symlinking ---\n" w
  let w := fmt_Printf ("Reading configurations from: " ++ configSourceDir ++ "\n") w
  match os_ReadDir env configSourceDir w with
  | (.error err, w) =>
    log_Fatalf ("Error: Could not read config source directory " ++ configSourceDir ++ ". " ++
      err) w
  | (.ok entries, w) =>
    match os_MkdirAll env configDestDir w with
    | (some err, w) =>
      log_Fatalf ("Error: Could not create destination ~/.config directory. " ++ err) w
    | (none, w) =>
      .returned (entries.foldl (linkEntry env configSourceDir configDestDir) w)

/-- The function `main` (restore.go 110-133). -/
def main (env : Env) (w : World) : Result :=
  match os_UserHomeDir env w with
  | (.error err, w) => log_Fatalf ("Error: Could not get user home directory. " ++ err) w
  | (.ok homeDir, w) =>
    let dotfilesDir := filepath_Join [homeDir, "Workspace", "dotfiles"]
    let configDestDir := filepath_Join [homeDir, ".config"]
    let w := match exec_LookPath env "brew" w with
      | (.error _, w) =>
        let w := log_Printf
          "Warning: Homebrew command 'brew' not found in PATH. Skipping all package installations." w
        log_Printf "Please install Homebrew first by visiting https://brew.sh/" w
      | (.ok _, w) =>
        let w := installBrewPackages env (filepath_Join [dotfilesDir, "brew_formulae.txt"]) false w
        installBrewPackages env (filepath_Join [dotfilesDir, "brew_casks.txt"]) true w
    match linkDotfiles env dotfilesDir configDestDir w with
    | .exited code w => .exited code w
    | .returned w => .returned (fmt_Printf "\n--- Restore Script Complete ---\n" w)

/-! ## Reading a history -/

/-- The commands run, in order: the executable and its argument vector. -/
def commands (t : List Event) : List (String × List String) :=
  t.filterMap fun e => match e with
    | .run name args _ => some (name, args)
    | _ => none

/-- The messages logged, in order. -/
def logs (t : List Event) : List String :=
  t.filterMap fun e => match e with
    | .log msg => some msg
    | _ => none

/-- The argument vectors of the commands that ended in an error, in order. -/
def failedRuns (t : List Event) : List (List String) :=
  t.filterMap fun e => match e with
    | .run _ args (some _) => some args
    | _ => none

/-- The exit codes in a history: not empty exactly when the process was
terminated. -/
def exits (t : List Event) : List Nat :=
  t.filterMap fun e => match e with
    | .exit code => some code
    | _ => none

/-- A blank line: empty, or white space only. -/
def isBlank (line : String) : Bool := line.data.all isSpace

/-- The package names of a list: the trimmed lines that are not empty. -/
def packageNames (lines : List String) : List String :=
  (lines.map TrimSpace).filter (fun name => name ≠ "")

/-- The argument vector the spec gives the install command of `name`. -/
def installArgs (isCask : Bool) (name : String) : List String :=
  if isCask then ["install", "--cask", name] else ["install", name]

/-- The message logged for a failed install with argument vector `args`. -/
def installFailure (args : List String) : String :=
  "Error installing " ++ args.getLast?.getD "" ++
    ". It may already be installed or there was another issue."

/-- The message logged when the scan of a package list ends in an error. -/
def scanFailure (packagesFile : String) (err : Option String) : List String :=
  match err with
  | some e => ["Error reading package list " ++ packagesFile ++ ": " ++ e]
  | none => []

/-- A name a directory listing can hold: one path element. -/
def validName (n : String) : Prop :=
  n ≠ "" ∧ '/' ∉ n.data ∧ n ≠ "." ∧ n ≠ ".."

instance validName.decidable (n : String) : Decidable (validName n) := by
  unfold validName
  infer_instance

/-- The text `filepath.Join [dir, name]` puts before `name`. -/
def joinBase (dir : String) : List Char :=
  if dir = "" then []
  else
    (if dir.data.head? = some '/' then ['/'] else []) ++
      (if cleanStack dir.data = [] then [] else joinSlash (cleanStack dir.data).reverse ++ ['/'])

/-- How the processing of one directory entry went: `Lstat` found the
destination and the removal failed; `Lstat` found it, it was removed and the
link was attempted; `Lstat` failed and the link was attempted. -/
inductive Outcome where
  | skipped (rmErr : String)
  | replaced (lnErr : Option String)
  | fresh (lstatErr : String) (lnErr : Option String)
  deriving DecidableEq, Repr

/-- Whether `Lstat` found the destination. -/
def Outcome.found : Outcome → Bool
  | .skipped _ => true
  | .replaced _ => true
  | .fresh _ _ => false

/-- Whether the link was created. -/
def Outcome.linked : Outcome → Bool
  | .replaced none => true
  | .fresh _ none => true
  | _ => false

/-- The events of the link step. -/
def linkEvents (name s d : String) (lnErr : Option String) : List Event :=
  [.print ("  - Linking " ++ s ++ " -> " ++ d ++ "\n"), .symlink s d lnErr,
    match lnErr with
    | some err => .log ("  - Error: Failed to link " ++ name ++ ". " ++ err ++ "\n")
    | none => .print ("  - Successfully linked " ++ name ++ ".\n")]

/-- The events of one directory entry, by outcome. -/
def entryEvents (name s d : String) : Outcome → List Event
  | .skipped rmErr =>
    [.print ("Processing " ++ name ++ "...\n"), .lstat d none,
      .print ("  - Removing existing target: " ++ d ++ "\n"), .removeAll d (some rmErr),
      .log ("  - Warning: Failed to remove existing destination " ++ d ++ ". " ++ rmErr ++ "\n")]
  | .replaced lnErr =>
    [.print ("Processing " ++ name ++ "...\n"), .lstat d none,
      .print ("  - Removing existing target: " ++ d ++ "\n"), .removeAll d none] ++
      linkEvents name s d lnErr
  | .fresh lstatErr lnErr =>
    [.print ("Processing " ++ name ++ "...\n"), .lstat d (some lstatErr)] ++
      linkEvents name s d lnErr

/-- The paths examined with `Lstat`, in order. -/
def lstats (t : List Event) : List String :=
  t.filterMap fun e => match e with
    | .lstat p _ => some p
    | _ => none

/-- The paths whose removal was attempted, in order. -/
def removals (t : List Event) : List String :=
  t.filterMap fun e => match e with
    | .removeAll p _ => some p
    | _ => none

/-- The symbolic links whose creation was attempted, in order: target and
link path. -/
def links (t : List Event) : List (String × String) :=
  t.filterMap fun e => match e with
    | .symlink s d _ => some (s, d)
    | _ => none

/-- The destinations dealt with, in order: a link attempt, or a removal that
failed. -/
def handled (t : List Event) : List String :=
  t.filterMap fun e => match e with
    | .symlink _ d _ => some d
    | .removeAll d (some _) => some d
    | _ => none

/-- The events of a pass of the link loop over a listing: nothing for an entry
that is not a directory, the events of some outcome for a directory. -/
inductive LoopEvents (src dst : String) : List DirEntry → List Event → Prop where
  | nil : LoopEvents src dst [] []
  | file (e : DirEntry) (es : List DirEntry) (evs : List Event) :
      e.isDir = false → LoopEvents src dst es evs → LoopEvents src dst (e :: es) evs
  | dir (e : DirEntry) (o : Outcome) (es : List DirEntry) (evs : List Event) :
      e.isDir = true → LoopEvents src dst es evs →
      LoopEvents src dst (e :: es)
        (entryEvents e.name (filepath_Join [src, e.name]) (filepath_Join [dst, e.name]) o ++ evs)

/-- A listing as `os.ReadDir` gives it: the names are path elements, no two
the same. -/
def wellFormed (entries : List DirEntry) : Prop :=
  (entries.map (fun e => e.name)).Nodup ∧ ∀ e ∈ entries, validName e.name

instance wellFormed.decidable (entries : List DirEntry) : Decidable (wellFormed entries) := by
  unfold wellFormed
  infer_instance

/-- The world in which `linkDotfiles` lists the source directory. -/
def atReadDir (dotfilesDir : String) (w : World) : World :=
  fmt_Printf ("Reading configurations from: " ++ filepath_Join [dotfilesDir, "config"] ++ "\n")
    (fmt_Printf "\n--- Starting Dotfile Symlinking ---\n" w)

/-- The world in which `linkDotfiles` creates the destination root. -/
def atMkdirAll (dotfilesDir : String) (w : World) : World :=
  emit (.readDir (filepath_Join [dotfilesDir, "config"]) none) (atReadDir dotfilesDir w)

/-- The world in which the link loop of `linkDotfiles` starts. -/
def atLoop (dotfilesDir configDestDir : String) (w : World) : World :=
  emit (.mkdirAll configDestDir none)
    { atMkdirAll dotfilesDir w with fs := makeDirs configDestDir w.fs }

/-- The events of `linkDotfiles` before its loop, when the listing and the
creation of the destination root succeed. -/
def linkPrelude (dotfilesDir configDestDir : String) : List Event :=
  [.print "\n--- Starting Dotfile Symlinking ---\n",
    .print ("Reading configurations from: " ++ filepath_Join [dotfilesDir, "config"] ++ "\n"),
    .readDir (filepath_Join [dotfilesDir, "config"]) none,
    .mkdirAll configDestDir none]

/-- The end of `main`, after `linkDotfiles`: the completion message, unless the
process has exited. -/
def complete (r : Result) : Result :=
  match r with
  | .exited code w => .exited code w
  | .returned w => .returned (fmt_Printf "\n--- Restore Script Complete ---\n" w)

/-- A cleaned path other than the root and the current directory. -/
def cleanPath (p : String) : Prop :=
  filepath_Clean p = p ∧ p ≠ "/" ∧ p ≠ "."

instance cleanPath.decidable (p : String) : Decidable (cleanPath p) := by
  unfold cleanPath
  infer_instance

/-! ## Concrete scenarios -/

/-- A world with an empty name space and no history. -/
def emptyWorld : World := ⟨fun _ => none, []⟩

/-- An environment in which `brew_formulae.txt` holds the lines `git`, an
empty line and `wget`, no other file opens, and every command succeeds except
the install of `git`. -/
def brewEnv : Env where
  userHomeDir := fun _ => .ok "/Users/me"
  lookPath := fun _ _ => .ok "/opt/homebrew/bin/brew"
  openFile := fun _ p =>
    if p = "/Users/me/Workspace/dotfiles/brew_formulae.txt" then .ok ⟨["git", "", "wget"], none⟩
    else .error "no such file or directory"
  run := fun w _ args => (if args = ["install", "git"] then some "exit status 1" else none, w.fs)
  readDir := fun _ _ => .ok []
  mkdirAll := fun _ _ => none
  lstat := fun _ _ => none
  removeAll := fun _ _ => none
  symlink := fun _ _ _ => none

/-- As `brewEnv`, with a package list of blank lines only. -/
def blankEnv : Env :=
  { brewEnv with openFile := fun _ _ => .ok ⟨["", "  ", "\t"], none⟩ }

/-- The listing of the spec's scenario, in the order `os.ReadDir` gives it: a
plain file `README.md` and the directories `nvim` and `zsh`. -/
def configListing : List DirEntry :=
  [⟨"README.md", false⟩, ⟨"nvim", true⟩, ⟨"zsh", true⟩]

/-- As `brewEnv`, with `configListing` as the content of every directory. -/
def linkEnv : Env :=
  { brewEnv with readDir := fun _ _ => .ok configListing }

/-- As `linkEnv`, but no symbolic link can be created at `~/.config/nvim`. -/
def linkFailEnv : Env :=
  { linkEnv with symlink := fun _ _ d =>
      if d = "/Users/me/.config/nvim" then some "permission denied" else none }

/-- As `linkEnv`, but `~/.config/nvim` cannot be removed. -/
def removeFailEnv : Env :=
  { linkEnv with removeAll := fun _ p =>
      if p = "/Users/me/.config/nvim" then some ("permission denied", fun _ => false) else none }

/-- A world in which `~/.config/nvim` is a regular file and nothing else
exists. -/
def homeWorld : World :=
  ⟨fun p => if p = "/Users/me/.config/nvim" then some Node.file else none, []⟩

/-- As `linkEnv`, but the source config directory cannot be read. -/
def unreadableEnv : Env :=
  { linkEnv with readDir := fun _ _ => .error "permission denied" }

/-- As `linkEnv`, but the destination root cannot be created. -/
def noRootEnv : Env :=
  { linkEnv with mkdirAll := fun _ _ => some ("read-only file system", fun _ => false) }

/-- As `linkEnv`, but `brew` is not on the search path. -/
def noBrewEnv : Env :=
  { linkEnv with lookPath := fun _ _ => .error "executable file not found in $PATH" }

/-- The events of the link of `zsh` where nothing is in the way. -/
def zshEvents : List Event :=
  [.print "Processing zsh...\n",
    .lstat "/Users/me/.config/zsh"
      (some "lstat /Users/me/.config/zsh: no such file or directory"),
    .print "  - Linking /Users/me/Workspace/dotfiles/config/zsh -> /Users/me/.config/zsh\n",
    .symlink "/Users/me/Workspace/dotfiles/config/zsh" "/Users/me/.config/zsh" none,
    .print "  - Successfully linked zsh.\n"]

/-- The events of `linkDotfiles` in the scenarios up to the processing of
`nvim`. -/
def startEvents : List Event :=
  [.print "\n--- Starting Dotfile Symlinking ---\n",
    .print "Reading configurations from: /Users/me/Workspace/dotfiles/config\n",
    .readDir "/Users/me/Workspace/dotfiles/config" none,
    .mkdirAll "/Users/me/.config" none,
    .print "Processing nvim...\n"]

/-! ## Lemmas on histories -/

@[simp] theorem commands_nil : commands [] = [] := rfl

@[simp] theorem logs_nil : logs [] = [] := rfl

@[simp] theorem failedRuns_nil : failedRuns [] = [] := rfl

@[simp] theorem exits_nil : exits [] = [] := rfl

@[simp] theorem exits_append (s t : List Event) : exits (s ++ t) = exits s ++ exits t := by
  simp [exits]

@[simp] theorem commands_append (s t : List Event) :
    commands (s ++ t) = commands s ++ commands t := by
  simp [commands]

@[simp] theorem logs_append (s t : List Event) : logs (s ++ t) = logs s ++ logs t := by
  simp [logs]

@[simp] theorem failedRuns_append (s t : List Event) :
    failedRuns (s ++ t) = failedRuns s ++ failedRuns t := by
  simp [failedRuns]

theorem packageNames_cons (l : String) (ls : List String) :
    packageNames (l :: ls) = packageNames [l] ++ packageNames ls := by
  by_cases h : TrimSpace l = "" <;> simp [packageNames, List.filter_cons, h]

theorem cmd_Run_eq (env : Env) (name : String) (args : List String) (w : World) :
    cmd_Run env name args w =
      ((env.run w name args).1,
        ⟨(env.run w name args).2, w.trace ++ [.run name args (env.run w name args).1]⟩) := rfl

/-! ## The package installer -/

/-- One pass of the scan loop: a blank line leaves the world alone; any other
line prints, runs one command, and logs once exactly when the command failed. -/
theorem installLine_events (env : Env) (ty : String) (args : List String) (w : World)
    (text : String) :
    ∃ evs, (installLine env ty args w text).trace = w.trace ++ evs ∧
      commands evs = (packageNames [text]).map (fun n => ("brew", args ++ [n])) ∧
      logs evs = (failedRuns evs).map installFailure ∧ exits evs = [] := by
  by_cases hb : TrimSpace text = ""
  · exact ⟨[], by simp [installLine, hb, packageNames]⟩
  · unfold installLine
    simp only [hb, if_false, cmd_Run_eq]
    generalize env.run _ _ _ = r
    obtain ⟨r1, r2⟩ := r
    cases r1 with
    | none =>
      exact ⟨[.print ("\nInstalling " ++ ty ++ ": " ++ TrimSpace text ++ "\n"),
        .run "brew" (args ++ [TrimSpace text]) none], by
          simp [hb, packageNames, emit, fmt_Printf, commands, logs, failedRuns, exits]⟩
    | some e =>
      exact ⟨[.print ("\nInstalling " ++ ty ++ ": " ++ TrimSpace text ++ "\n"),
        .run "brew" (args ++ [TrimSpace text]) (some e),
        .log (installFailure (args ++ [TrimSpace text]))], by
          simp [hb, packageNames, emit, fmt_Printf, log_Printf, commands, logs, failedRuns,
            installFailure, exits]⟩

/-- The whole scan loop: one command per package name, in order, whatever the
commands return, and one log line per failed command. -/
theorem installLines_events (env : Env) (ty : String) (args : List String)
    (lines : List String) (w : World) :
    ∃ evs, (lines.foldl (installLine env ty args) w).trace = w.trace ++ evs ∧
      commands evs = (packageNames lines).map (fun n => ("brew", args ++ [n])) ∧
      logs evs = (failedRuns evs).map installFailure ∧ exits evs = [] := by
  induction lines generalizing w with
  | nil => exact ⟨[], by simp [packageNames]⟩
  | cons l ls ih =>
    obtain ⟨e1, h1, c1, g1, x1⟩ := installLine_events env ty args w l
    obtain ⟨e2, h2, c2, g2, x2⟩ := ih (installLine env ty args w l)
    refine ⟨e1 ++ e2, ?_, ?_, ?_, ?_⟩
    · rw [List.foldl_cons, h2, h1, List.append_assoc]
    · rw [commands_append, c1, c2, packageNames_cons l ls, List.map_append]
    · rw [logs_append, g1, g2, failedRuns_append, List.map_append]
    · rw [exits_append, x1, x2, List.append_nil]

/-- A run of `installBrewPackages` on a list that opens: the history grows by
the open, the header, the loop's events, the scan error if any, and the close. -/
theorem installBrewPackages_events (env : Env) (packagesFile : String) (isCask : Bool)
    (w : World) (file : ScanFile) (h : env.openFile w packagesFile = .ok file) :
    ∃ evs, (installBrewPackages env packagesFile isCask w).trace =
        w.trace ++ evs ++ [.closeFile packagesFile] ∧
      commands evs = (packageNames file.lines).map (fun n => ("brew", installArgs isCask n)) ∧
      logs evs = (failedRuns evs).map installFailure ++ scanFailure packagesFile file.err ∧
      exits evs = [] := by
  obtain ⟨e, h1, c1, g1, x1⟩ := installLines_events env (if isCask then "cask" else "formula")
    (if isCask then ["install"] ++ ["--cask"] else ["install"]) file.lines
    (fmt_Printf ("\n--- Installing Homebrew " ++ (if isCask then "cask" else "formula") ++
      "s ---\n") (emit (.openFile packagesFile none) w))
  have c2 : commands e = (packageNames file.lines).map (fun n => ("brew", installArgs isCask n)) := by
    rw [c1]; cases isCask <;> simp [installArgs]
  cases he : file.err with
  | none =>
    refine ⟨[.openFile packagesFile none, .print ("\n--- Installing Homebrew " ++
      (if isCask then "cask" else "formula") ++ "s ---\n")] ++ e, ?_, ?_, ?_, ?_⟩
    · unfold installBrewPackages os_Open
      simp only [h, he]
      show World.trace (List.foldl _ _ _) ++ _ = _
      rw [h1]
      simp [emit, fmt_Printf]
    · simpa [commands] using c2
    · simpa [logs, failedRuns, scanFailure] using g1
    · simpa [exits] using x1
  | some err =>
    refine ⟨[.openFile packagesFile none, .print ("\n--- Installing Homebrew " ++
      (if isCask then "cask" else "formula") ++ "s ---\n")] ++ e ++
      [.log ("Error reading package list " ++ packagesFile ++ ": " ++ err)], ?_, ?_, ?_, ?_⟩
    · unfold installBrewPackages os_Open
      simp only [h, he]
      show (World.trace (List.foldl _ _ _) ++ _) ++ _ = _
      rw [h1]
      simp [emit, fmt_Printf]
    · simpa [commands] using c2
    · simpa [logs, failedRuns, scanFailure] using g1
    · simpa [exits] using x1

/-! ### White space -/

theorem trimLeft_eq_nil (l : List Char) : trimLeft l = [] ↔ ∀ c ∈ l, isSpace c = true := by
  induction l with
  | nil => simp [trimLeft]
  | cons a t ih => by_cases h : isSpace a = true <;> simp [trimLeft, h, ih]

/-- `TrimSpace` gives the empty string exactly on blank lines. -/
theorem TrimSpace_eq_empty (s : String) : TrimSpace s = "" ↔ isBlank s = true := by
  have h1 : TrimSpace s = "" ↔ trimLeft (trimLeft s.data).reverse = [] := by
    unfold TrimSpace
    constructor
    · intro h
      have := congrArg String.data h
      simpa using this
    · intro h
      rw [h]; rfl
  rw [h1, trimLeft_eq_nil, isBlank, List.all_eq_true]
  constructor
  · intro h
    have h2 : trimLeft s.data = [] := by
      cases ht : trimLeft s.data with
      | nil => rfl
      | cons a t =>
        exfalso
        have ha : isSpace a = true := h a (by simp [ht])
        have : ∀ l : List Char, trimLeft l = a :: t → isSpace a = false := by
          intro l
          induction l with
          | nil => simp [trimLeft]
          | cons b u ih =>
            by_cases hb : isSpace b = true
            · simpa [trimLeft, hb] using ih
            · intro h'
              simp only [trimLeft, hb] at h'
              simp only [Bool.false_eq_true, if_false, List.cons.injEq] at h'
              rw [← h'.1]; simpa using hb
        rw [this _ ht] at ha
        exact Bool.noConfusion ha
    exact (trimLeft_eq_nil _).1 h2
  · intro h
    rw [(trimLeft_eq_nil _).2 h]
    simp

theorem packageNames_eq_filter (lines : List String) :
    packageNames lines = (lines.filter (fun l => !isBlank l)).map TrimSpace := by
  induction lines with
  | nil => rfl
  | cons l ls ih =>
    rw [packageNames_cons, ih]
    by_cases h : isBlank l = true
    · have := (TrimSpace_eq_empty l).2 h
      simp [packageNames, h, this]
    · have : ¬ TrimSpace l = "" := fun h' => h ((TrimSpace_eq_empty l).1 h')
      simp [packageNames, h, this]

/-! ### The claims on `installBrewPackages` -/

/-- C2: `installBrewPackages` issues no command for a blank line (empty or
white space only): the commands are those of the lines that are not blank.  When
the list cannot be opened the run consists of the failed open and one warning,
the filesystem is untouched and no command is issued.  In no case does the
function terminate the process. -/
theorem installBrewPackages_blank_missing (env : Env) (packagesFile : String) (isCask : Bool)
    (w : World) :
    (∀ file, env.openFile w packagesFile = .ok file →
      commands (installBrewPackages env packagesFile isCask w).trace =
        commands w.trace ++ (file.lines.filter (fun l => !isBlank l)).map
          (fun l => ("brew", installArgs isCask (TrimSpace l)))) ∧
    (∀ file, env.openFile w packagesFile = .ok file →
      (∀ l ∈ file.lines, isBlank l = true) →
      commands (installBrewPackages env packagesFile isCask w).trace = commands w.trace) ∧
    (∀ err, env.openFile w packagesFile = .error err →
      (installBrewPackages env packagesFile isCask w).trace =
        w.trace ++ [.openFile packagesFile (some err),
          .log ("Warning: Could not open package list " ++ packagesFile ++ ": " ++ err ++
            ". Skipping.")] ∧
      (installBrewPackages env packagesFile isCask w).fs = w.fs ∧
      commands (installBrewPackages env packagesFile isCask w).trace = commands w.trace) ∧
    exits (installBrewPackages env packagesFile isCask w).trace = exits w.trace := by
  have key : ∀ file, env.openFile w packagesFile = .ok file →
      commands (installBrewPackages env packagesFile isCask w).trace =
        commands w.trace ++ (file.lines.filter (fun l => !isBlank l)).map
          (fun l => ("brew", installArgs isCask (TrimSpace l))) := by
    intro file h
    obtain ⟨evs, ht, hc, -, -⟩ := installBrewPackages_events env packagesFile isCask w file h
    rw [ht]
    simp only [commands_append, hc, packageNames_eq_filter, List.map_map]
    simp [commands, Function.comp_def]
  have miss : ∀ err, env.openFile w packagesFile = .error err →
      installBrewPackages env packagesFile isCask w =
        log_Printf ("Warning: Could not open package list " ++ packagesFile ++ ": " ++ err ++
          ". Skipping.") (emit (.openFile packagesFile (some err)) w) := by
    intro err h
    unfold installBrewPackages os_Open
    simp only [h]
  refine ⟨key, ?_, ?_, ?_⟩
  · intro file h hb
    rw [key file h]
    have : file.lines.filter (fun l => !isBlank l) = [] := by
      rw [List.filter_eq_nil_iff]
      intro l hl
      simp [hb l hl]
    simp [this]
  · intro err h
    rw [miss err h]
    simp [log_Printf, emit, commands]
  · cases h : env.openFile w packagesFile with
    | error err =>
      rw [miss err h]
      simp [log_Printf, emit, exits]
    | ok file =>
      obtain ⟨evs, ht, -, -, hx⟩ := installBrewPackages_events env packagesFile isCask w file h
      rw [ht]
      simp only [exits_append, hx]
      simp [exits]

/-- C2, three scenarios: a list of blank lines only and a missing file both
give an empty command sequence; in the list `git`, empty line, `wget` the empty
line gives no command. -/
theorem installBrewPackages_blank_missing_witness :
    commands (installBrewPackages blankEnv "brew_formulae.txt" false emptyWorld).trace = [] ∧
    commands (installBrewPackages brewEnv "brew_casks.txt" true emptyWorld).trace = [] ∧
    commands (installBrewPackages brewEnv "/Users/me/Workspace/dotfiles/brew_formulae.txt" true
      emptyWorld).trace =
      [("brew", ["install", "--cask", "git"]), ("brew", ["install", "--cask", "wget"])] :=
  ⟨(installBrewPackages_blank_missing blankEnv "brew_formulae.txt" false emptyWorld).2.1
      ⟨["", "  ", "\t"], none⟩ rfl (by decide),
    ((installBrewPackages_blank_missing brewEnv "brew_casks.txt" true emptyWorld).2.2.1
      "no such file or directory" rfl).2.2,
    ((installBrewPackages_blank_missing brewEnv "/Users/me/Workspace/dotfiles/brew_formulae.txt"
      true emptyWorld).1 ⟨["git", "", "wget"], none⟩ rfl).trans (by decide)⟩

/-- C3: the commands `installBrewPackages` issues do not depend on how the
commands end: with any other assignment `run` of exit statuses the command
sequence is the same, one command per package name in file order, so a failed
install is followed by the next one and none is repeated.  The messages logged
during the run are one per failed command (and one more if the scan itself
ended in an error), the process is not terminated, and the run reaches the
end of the function, where the file is closed. -/
theorem installBrewPackages_failures (env : Env) (packagesFile : String) (isCask : Bool)
    (w : World) (file : ScanFile) (h : env.openFile w packagesFile = .ok file)
    (run : World → String → List String → Option String × FS) :
    commands (installBrewPackages { env with run := run } packagesFile isCask w).trace =
      commands (installBrewPackages env packagesFile isCask w).trace ∧
    commands (installBrewPackages env packagesFile isCask w).trace =
      commands w.trace ++
        (packageNames file.lines).map (fun name => ("brew", installArgs isCask name)) ∧
    (∃ evs, (installBrewPackages env packagesFile isCask w).trace =
        w.trace ++ evs ++ [.closeFile packagesFile] ∧
      logs evs = (failedRuns evs).map installFailure ++ scanFailure packagesFile file.err) ∧
    exits (installBrewPackages env packagesFile isCask w).trace = exits w.trace := by
  obtain ⟨evs, ht, hc, hl, hx⟩ := installBrewPackages_events env packagesFile isCask w file h
  obtain ⟨evs2, ht2, hc2, -, -⟩ :=
    installBrewPackages_events { env with run := run } packagesFile isCask w file h
  refine ⟨?_, ?_, ⟨evs, ht, hl⟩, ?_⟩
  · rw [ht, ht2]; simp only [commands_append, hc, hc2]
  · rw [ht]; simp only [commands_append, hc]; simp [commands]
  · rw [ht]; simp only [exits_append, hx]; simp [exits]

/-- C3, a scenario: the install of `git` fails, one message is logged for it,
and `wget` is installed next. -/
theorem installBrewPackages_failures_witness :
    (installBrewPackages brewEnv "/Users/me/Workspace/dotfiles/brew_formulae.txt" false
      emptyWorld).trace =
      [.openFile "/Users/me/Workspace/dotfiles/brew_formulae.txt" none,
        .print "\n--- Installing Homebrew formulas ---\n",
        .print "\nInstalling formula: git\n",
        .run "brew" ["install", "git"] (some "exit status 1"),
        .log "Error installing git. It may already be installed or there was another issue.",
        .print "\nInstalling formula: wget\n",
        .run "brew" ["install", "wget"] none,
        .closeFile "/Users/me/Workspace/dotfiles/brew_formulae.txt"] ∧
    commands (installBrewPackages { brewEnv with run := fun w _ _ => (none, w.fs) }
        "/Users/me/Workspace/dotfiles/brew_formulae.txt" false emptyWorld).trace =
      commands (installBrewPackages brewEnv "/Users/me/Workspace/dotfiles/brew_formulae.txt" false
        emptyWorld).trace :=
  ⟨by decide,
    (installBrewPackages_failures brewEnv "/Users/me/Workspace/dotfiles/brew_formulae.txt" false
      emptyWorld ⟨["git", "", "wget"], none⟩ rfl (fun w _ _ => (none, w.fs))).1⟩

/-! ## The library model on known values

Values taken from the documentation and the tests of Go's `strings` and
`path/filepath` packages. -/

theorem TrimSpace_values :
    TrimSpace "  git \t" = "git" ∧ TrimSpace "\r\n" = "" ∧ TrimSpace "a b" = "a b" ∧
    TrimSpace "\u00a0wget\u3000" = "wget" ∧ TrimSpace "" = "" := by decide

theorem filepath_Clean_values :
    filepath_Clean "" = "." ∧ filepath_Clean "abc/" = "abc" ∧
    filepath_Clean "a//b/./c/.." = "a/b" ∧ filepath_Clean "/../a" = "/a" ∧
    filepath_Clean "../../a/.." = "../.." ∧ filepath_Clean "abc/def/../../.." = ".." ∧
    filepath_Clean "/" = "/" ∧ filepath_Clean "//abc" = "/abc" := by decide

theorem filepath_Join_values :
    filepath_Join ["a", ""] = "a" ∧ filepath_Join ["", ""] = "" ∧
    filepath_Join ["/", "a"] = "/a" ∧ filepath_Join ["a/", "b"] = "a/b" ∧
    filepath_Join ["", "a", "b"] = "a/b" ∧ filepath_Join ["a", "../b"] = "b" ∧
    filepath_Join ["/Users/me/", "Workspace", "dotfiles"] = "/Users/me/Workspace/dotfiles" := by
  decide

/-! ## Paths -/

theorem splitSlashAux_no_slash (n acc : List Char) (hn : '/' ∉ n) :
    splitSlashAux n acc = [acc.reverse ++ n] := by
  induction n generalizing acc with
  | nil => simp [splitSlashAux]
  | cons c cs ih =>
    have hc : c ≠ '/' := fun h => hn (by simp [h])
    have hcs : '/' ∉ cs := fun h => hn (by simp [h])
    simp [splitSlashAux, hc, ih (c :: acc) hcs]

theorem splitSlashAux_append (d n acc : List Char) (hn : '/' ∉ n) :
    splitSlashAux (d ++ '/' :: n) acc = splitSlashAux d acc ++ [n] := by
  induction d generalizing acc with
  | nil => simp [splitSlashAux, splitSlashAux_no_slash n [] hn]
  | cons c cs ih =>
    by_cases hc : c = '/'
    · simp [splitSlashAux, hc, ih]
    · simp [splitSlashAux, hc, ih]

theorem joinSlash_append_one (xs : List (List Char)) (n : List Char) :
    joinSlash (xs ++ [n]) = if xs = [] then n else joinSlash xs ++ '/' :: n := by
  induction xs with
  | nil => simp [joinSlash]
  | cons a t ih =>
    cases t with
    | nil => simp [joinSlash]
    | cons b u =>
      simp only [List.cons_append, joinSlash] at ih ⊢
      simp [ih]

theorem cleanStep_name (rooted : Bool) (st : List (List Char)) (n : List Char)
    (h0 : n ≠ []) (h1 : n ≠ ['.']) (h2 : n ≠ ['.', '.']) : cleanStep rooted st n = n :: st := by
  simp [cleanStep, h0, h1, h2]

theorem validName_chars {n : String} (h : validName n) :
    n.data ≠ [] ∧ n.data ≠ ['.'] ∧ n.data ≠ ['.', '.'] ∧ '/' ∉ n.data := by
  obtain ⟨h0, hs, h1, h2⟩ := h
  refine ⟨?_, ?_, ?_, hs⟩
  · intro e; exact h0 (String.ext e)
  · intro e; exact h1 (String.ext e)
  · intro e; exact h2 (String.ext e)

/-- `filepath.Join [dir, name]` is a text that depends on `dir` alone, followed
by `name`, whenever `name` is a single path element. -/
theorem filepath_Join_name (dir name : String) (hn : validName name) :
    filepath_Join [dir, name] = ⟨joinBase dir ++ name.data⟩ := by
  obtain ⟨h0, h1, h2, hs⟩ := validName_chars hn
  have hne : name ≠ "" := hn.1
  by_cases hd : dir = ""
  · subst hd
    have hhead : name.data.head? ≠ some '/' := by
      intro e
      cases hdn : name.data with
      | nil => exact h0 hdn
      | cons c cs =>
        rw [hdn] at e hs
        simp at e
        exact hs (by simp [e])
    simp [filepath_Join, hne, joinBase, joinSlash, cleanChars, h0, hhead, cleanStack, splitSlash,
      splitSlashAux_no_slash _ _ hs, cleanStep_name _ _ _ h0 h1 h2]
  · have hdd : dir.data ≠ [] := fun e => hd (String.ext e)
    have hjoin : joinSlash ([dir, name].map String.data) = dir.data ++ '/' :: name.data := by
      simp [joinSlash]
    have hhead : (dir.data ++ '/' :: name.data).head? = dir.data.head? := by
      cases hdata : dir.data with
      | nil => exact absurd hdata hdd
      | cons c cs => simp
    have hstack : cleanStack (dir.data ++ '/' :: name.data) = name.data :: cleanStack dir.data := by
      unfold cleanStack splitSlash
      rw [splitSlashAux_append _ _ _ hs, List.foldl_append, hhead]
      simp [cleanStep_name _ _ _ h0 h1 h2]
    have hnn : dir.data ++ '/' :: name.data ≠ [] := by simp
    unfold filepath_Join
    simp only [List.dropWhile, hd, decide_False]
    rw [hjoin]
    unfold cleanChars
    simp only [hnn, if_false, hhead, hstack, List.reverse_cons, joinSlash_append_one]
    by_cases hr : dir.data.head? = some '/'
    · by_cases hst : cleanStack dir.data = []
      · simp [joinBase, hd, hr, hst]
      · simp [joinBase, hd, hr, hst]
    · by_cases hst : cleanStack dir.data = []
      · simp [joinBase, hd, hr, hst]
      · simp [joinBase, hd, hr, hst]


theorem filepath_Join_ne (dir n1 n2 : String) (h1 : validName n1) (h2 : validName n2)
    (hne : n1 ≠ n2) : filepath_Join [dir, n1] ≠ filepath_Join [dir, n2] := by
  rw [filepath_Join_name dir n1 h1, filepath_Join_name dir n2 h2]
  intro h
  have h' := congrArg String.data h
  simp only [List.append_cancel_left_eq] at h'
  exact hne (String.ext h')

theorem filepath_Join_not_below (dir n1 n2 : String) (h1 : validName n1) (h2 : validName n2) :
    isBelow (filepath_Join [dir, n1]) (filepath_Join [dir, n2]) = false := by
  rw [filepath_Join_name dir n1 h1, filepath_Join_name dir n2 h2]
  obtain ⟨h10, -, -, h1s⟩ := validName_chars h1
  obtain ⟨-, -, -, h2s⟩ := validName_chars h2
  have hlast : (joinBase dir ++ n1.data).getLast? ≠ some '/' := by
    rw [List.getLast?_append_of_ne_nil _ h10]
    intro h
    exact h1s (List.mem_of_getLast?_eq_some h)
  have hpre : (joinBase dir ++ n1.data ++ ['/']).isPrefixOf (joinBase dir ++ n2.data) = false := by
    rw [Bool.eq_false_iff]
    intro h
    rw [List.isPrefixOf_iff_prefix, List.append_assoc, List.prefix_append_right_inj] at h
    obtain ⟨t, ht⟩ := h
    exact h2s (by rw [← ht]; simp)
  have hd : dirText ⟨joinBase dir ++ n1.data⟩ = joinBase dir ++ n1.data ++ ['/'] := by
    unfold dirText
    exact if_neg hlast
  unfold isBelow
  rw [hd]
  show ((joinBase dir ++ n1.data ++ ['/']).isPrefixOf (joinBase dir ++ n2.data) && _) = false
  rw [hpre]
  rfl

theorem joinBase_clean (d : String) (h : cleanPath d) : joinBase d = d.data ++ ['/'] := by
  obtain ⟨hc, hroot, hdot⟩ := h
  have hc' : cleanChars d.data = d.data := congrArg String.data hc
  have hne : d ≠ "" := by
    intro e
    rw [e] at hc'
    simp [cleanChars] at hc'
  have hdd : d.data ≠ [] := fun e => hne (String.ext e)
  unfold cleanChars at hc'
  simp only [hdd, if_false] at hc'
  unfold joinBase
  simp only [hne, if_false]
  by_cases hr : d.data.head? = some '/'
  · simp only [hr, if_true] at hc' ⊢
    by_cases hst : cleanStack d.data = []
    · exfalso
      rw [hst] at hc'
      exact hroot (String.ext hc'.symm)
    · simp only [hst, if_false]
      show ('/' :: joinSlash (cleanStack d.data).reverse) ++ ['/'] = _
      rw [hc']
  · simp only [hr, if_false] at hc' ⊢
    by_cases hst : cleanStack d.data = []
    · exfalso
      simp only [hst, if_true] at hc'
      exact hdot (String.ext hc'.symm)
    · simp only [hst, if_false] at hc' ⊢
      rw [List.nil_append, hc']

/-- Joining a single path element to a cleaned path appends it after a
separator. -/
theorem filepath_Join_clean (d n : String) (hc : cleanPath d) (hn : validName n) :
    filepath_Join [d, n] = d ++ "/" ++ n := by
  rw [filepath_Join_name d n hn, joinBase_clean d hc]
  apply String.ext
  simp

theorem cleanPath_join (d n : String) (hc : cleanPath d) (hn : validName n) :
    cleanPath (d ++ "/" ++ n) := by
  have hne : d ≠ "" := by
    intro e
    have := congrArg String.data hc.1
    rw [e] at this
    simp [filepath_Clean, cleanChars] at this
  have hn0 : n.data ≠ [] := (validName_chars hn).1
  have hj : filepath_Join [d, n] = filepath_Clean (d ++ "/" ++ n) := by
    unfold filepath_Join filepath_Clean
    simp [List.dropWhile, hne, joinSlash]
  refine ⟨?_, ?_, ?_⟩
  · rw [← hj, filepath_Join_clean d n hc hn]
  · intro e
    have hlen := congrArg (fun s => s.data.length) e
    simp at hlen
    have h0 : n.data.length ≠ 0 := fun h => hn0 (List.length_eq_zero.1 h)
    have h1 : n.length = n.data.length := rfl
    omega
  · intro e
    have hlen := congrArg (fun s => s.data.length) e
    simp at hlen
    have h0 : n.data.length ≠ 0 := fun h => hn0 (List.length_eq_zero.1 h)
    have h1 : n.length = n.data.length := rfl
    omega

theorem filepath_Join_three (d a b : String) (hc : cleanPath d) (ha : validName a)
    (hb : validName b) : filepath_Join [d, a, b] = d ++ "/" ++ a ++ "/" ++ b := by
  have hne : d ≠ "" := by
    intro e
    have := congrArg String.data hc.1
    rw [e] at this
    simp [filepath_Clean, cleanChars] at this
  have hne2 : d ++ "/" ++ a ≠ "" := by
    intro e
    have := congrArg (fun s => s.data.length) e
    simp at this
  have hj : filepath_Join [d, a, b] = filepath_Join [d ++ "/" ++ a, b] := by
    unfold filepath_Join
    simp [List.dropWhile, hne, hne2, joinSlash]
  rw [hj, filepath_Join_clean _ b (cleanPath_join d a hc ha) hb]

theorem linkStep_spec (env : Env) (name s d : String) (w : World) :
    ∃ ln, (linkStep env name s d w).trace = w.trace ++ linkEvents name s d ln ∧
      (∀ q, q ≠ d → (linkStep env name s d w).fs q = w.fs q) ∧
      (ln = none → (linkStep env name s d w).fs d = some (.symlink s)) := by
  unfold linkStep os_Symlink
  simp only [fmt_Printf, emit]
  generalize env.symlink _ s d = r
  cases r with
  | some err =>
    refine ⟨some err, ?_, ?_, ?_⟩
    · simp [linkEvents, log_Printf, emit]
    · intro q _; simp [log_Printf, emit]
    · intro h; cases h
  | none =>
    by_cases hocc : (w.fs d).isSome = true
    · refine ⟨some ("symlink " ++ s ++ " " ++ d ++ ": file exists"), ?_, ?_, ?_⟩
      · simp [hocc, linkEvents, log_Printf, emit]
      · intro q _; simp [hocc, log_Printf, emit]
      · intro h; cases h
    · refine ⟨none, ?_, ?_, ?_⟩
      · simp [hocc, linkEvents]
      · intro q hq; simp [hocc, setNode, hq]
      · intro _; simp [hocc, setNode]

theorem linkEntry_file (env : Env) (src dst : String) (w : World) (e : DirEntry)
    (hd : e.isDir = false) : linkEntry env src dst w e = w := by
  simp [linkEntry, hd]

@[simp] theorem emit_fs (e : Event) (w : World) : (emit e w).fs = w.fs := rfl

@[simp] theorem emit_trace (e : Event) (w : World) : (emit e w).trace = w.trace ++ [e] := rfl

@[simp] theorem fmt_Printf_fs (m : String) (w : World) : (fmt_Printf m w).fs = w.fs := rfl

@[simp] theorem fmt_Printf_trace (m : String) (w : World) :
    (fmt_Printf m w).trace = w.trace ++ [.print m] := rfl

@[simp] theorem log_Printf_fs (m : String) (w : World) : (log_Printf m w).fs = w.fs := rfl

@[simp] theorem log_Printf_trace (m : String) (w : World) :
    (log_Printf m w).trace = w.trace ++ [.log m] := rfl

/-- `Lstat` either succeeds, and then the path names something, or fails. -/
theorem os_Lstat_spec (env : Env) (p : String) (w : World) :
    (os_Lstat env p w = (none, emit (.lstat p none) w) ∧ (w.fs p).isSome = true) ∨
    ∃ err, os_Lstat env p w = (some err, emit (.lstat p (some err)) w) := by
  unfold os_Lstat
  cases env.lstat w p with
  | some e => exact Or.inr ⟨e, rfl⟩
  | none =>
    cases hocc : w.fs p with
    | none => exact Or.inr ⟨"lstat " ++ p ++ ": no such file or directory", by simp⟩
    | some node => exact Or.inl ⟨by simp, rfl⟩

theorem linkEntry_dir (env : Env) (src dst : String) (w : World) (e : DirEntry)
    (hd : e.isDir = true) :
    ∃ o : Outcome,
      (linkEntry env src dst w e).trace = w.trace ++
        entryEvents e.name (filepath_Join [src, e.name]) (filepath_Join [dst, e.name]) o ∧
      (o.found = true → (w.fs (filepath_Join [dst, e.name])).isSome = true) ∧
      (∀ q, q ≠ filepath_Join [dst, e.name] → isBelow (filepath_Join [dst, e.name]) q = false →
        (linkEntry env src dst w e).fs q = w.fs q) ∧
      (o.linked = true → (linkEntry env src dst w e).fs (filepath_Join [dst, e.name]) =
        some (.symlink (filepath_Join [src, e.name]))) := by
  unfold linkEntry
  simp only [hd, Bool.not_true, Bool.false_eq_true, if_false]
  rcases os_Lstat_spec env (filepath_Join [dst, e.name])
    (fmt_Printf ("Processing " ++ e.name ++ "...\n") w) with ⟨hl, hocc⟩ | ⟨le, hl⟩
  · rw [hl]
    simp only []
    unfold os_RemoveAll
    generalize env.removeAll _ (filepath_Join [dst, e.name]) = r
    cases r with
    | some eg =>
      obtain ⟨err, gone⟩ := eg
      refine ⟨.skipped err, ?_, fun _ => hocc, ?_, ?_⟩
      · simp [entryEvents]
      · intro q hq hb
        simp [removeSome, hb]
      · intro h; simp [Outcome.linked] at h
    | none =>
      simp only []
      obtain ⟨ln, ht, hf, hl⟩ := linkStep_spec env e.name (filepath_Join [src, e.name])
        (filepath_Join [dst, e.name])
        (emit (.removeAll (filepath_Join [dst, e.name]) none)
          { fmt_Printf ("  - Removing existing target: " ++ filepath_Join [dst, e.name] ++ "\n")
              (emit (.lstat (filepath_Join [dst, e.name]) none)
                (fmt_Printf ("Processing " ++ e.name ++ "...\n") w)) with
            fs := removeTree (filepath_Join [dst, e.name])
              (fmt_Printf ("  - Removing existing target: " ++ filepath_Join [dst, e.name] ++ "\n")
              (emit (.lstat (filepath_Join [dst, e.name]) none)
                (fmt_Printf ("Processing " ++ e.name ++ "...\n") w))).fs })
      refine ⟨.replaced ln, ?_, fun _ => hocc, ?_, ?_⟩
      · rw [ht]; simp [entryEvents]
      · intro q hq hb; rw [hf q hq]; simp [removeTree, hq, hb]
      · intro h
        apply hl
        cases ln with
        | none => rfl
        | some _ => simp [Outcome.linked] at h
  · rw [hl]
    simp only []
    obtain ⟨ln, ht, hf, hk⟩ := linkStep_spec env e.name (filepath_Join [src, e.name])
      (filepath_Join [dst, e.name])
      (emit (.lstat (filepath_Join [dst, e.name]) (some le))
        (fmt_Printf ("Processing " ++ e.name ++ "...\n") w))
    refine ⟨.fresh le ln, ?_, ?_, ?_, ?_⟩
    · rw [ht]; simp [entryEvents]
    · intro h; cases h
    · intro q hq _; rw [hf q hq]; simp
    · intro h
      apply hk
      cases ln with
      | none => rfl
      | some _ => simp [Outcome.linked] at h

/-! ### The loop as a whole -/

theorem linkLoop_events (env : Env) (src dst : String) (entries : List DirEntry) (w : World) :
    ∃ evs, (entries.foldl (linkEntry env src dst) w).trace = w.trace ++ evs ∧
      LoopEvents src dst entries evs := by
  induction entries generalizing w with
  | nil => exact ⟨[], by simp, .nil⟩
  | cons e es ih =>
    cases hd : e.isDir with
    | false =>
      rw [List.foldl_cons, linkEntry_file _ _ _ _ _ hd]
      obtain ⟨evs, h1, h2⟩ := ih w
      exact ⟨evs, h1, .file e es evs hd h2⟩
    | true =>
      obtain ⟨o, ht, -⟩ := linkEntry_dir env src dst w e hd
      obtain ⟨evs, h1, h2⟩ := ih (linkEntry env src dst w e)
      exact ⟨_, by rw [List.foldl_cons, h1, ht, List.append_assoc], .dir e o es evs hd h2⟩

/-- The loop leaves alone every path that is neither a destination of a
directory entry nor below one. -/
theorem linkLoop_frame (env : Env) (src dst : String) (entries : List DirEntry) (w : World)
    (q : String)
    (hq : ∀ e ∈ entries, e.isDir = true →
      q ≠ filepath_Join [dst, e.name] ∧ isBelow (filepath_Join [dst, e.name]) q = false) :
    (entries.foldl (linkEntry env src dst) w).fs q = w.fs q := by
  induction entries generalizing w with
  | nil => rfl
  | cons e es ih =>
    rw [List.foldl_cons, ih _ (fun e' he' => hq e' (List.mem_cons_of_mem _ he'))]
    cases hd : e.isDir with
    | false => rw [linkEntry_file _ _ _ _ _ hd]
    | true =>
      obtain ⟨o, -, -, hf, -⟩ := linkEntry_dir env src dst w e hd
      obtain ⟨h1, h2⟩ := hq e (List.mem_cons_self _ _) hd
      exact hf q h1 h2

/-! ### Reading the events of an entry -/

theorem entryEvents_lstats (name s d : String) (o : Outcome) :
    lstats (entryEvents name s d o) = [d] := by
  rcases o with _ | ln | ⟨le, ln⟩
  · simp [entryEvents, linkEvents, lstats]
  · cases ln <;> simp [entryEvents, linkEvents, lstats]
  · cases ln <;> simp [entryEvents, linkEvents, lstats]

theorem entryEvents_handled (name s d : String) (o : Outcome) :
    handled (entryEvents name s d o) = [d] := by
  rcases o with _ | ln | ⟨le, ln⟩
  · simp [entryEvents, linkEvents, handled]
  · cases ln <;> simp [entryEvents, linkEvents, handled]
  · cases ln <;> simp [entryEvents, linkEvents, handled]

theorem entryEvents_exits (name s d : String) (o : Outcome) :
    exits (entryEvents name s d o) = [] := by
  rcases o with _ | ln | ⟨le, ln⟩
  · simp [entryEvents, linkEvents, exits]
  · cases ln <;> simp [entryEvents, linkEvents, exits]
  · cases ln <;> simp [entryEvents, linkEvents, exits]

theorem entryEvents_commands (name s d : String) (o : Outcome) :
    commands (entryEvents name s d o) = [] := by
  rcases o with _ | ln | ⟨le, ln⟩
  · simp [entryEvents, linkEvents, commands]
  · cases ln <;> simp [entryEvents, linkEvents, commands]
  · cases ln <;> simp [entryEvents, linkEvents, commands]

theorem entryEvents_removeAll (name s d p : String) (r : Option String) (o : Outcome)
    (h : Event.removeAll p r ∈ entryEvents name s d o) : p = d ∧ o.found = true := by
  rcases o with _ | ln | ⟨le, ln⟩
  · simp [entryEvents, linkEvents] at h; exact ⟨h.1, rfl⟩
  · cases ln <;> simp [entryEvents, linkEvents] at h <;> exact ⟨h.1, rfl⟩
  · cases ln <;> simp [entryEvents, linkEvents] at h

theorem entryEvents_symlink (name s d x y : String) (r : Option String) (o : Outcome)
    (h : Event.symlink x y r ∈ entryEvents name s d o) :
    x = s ∧ y = d ∧ (r = none → o.linked = true) := by
  rcases o with _ | ln | ⟨le, ln⟩
  · simp [entryEvents, linkEvents] at h
  · cases ln <;> simp [entryEvents, linkEvents] at h
    · exact ⟨h.1, h.2.1, fun _ => rfl⟩
    · exact ⟨h.1, h.2.1, fun hr => absurd hr (by rw [h.2.2]; simp)⟩
  · cases ln <;> simp [entryEvents, linkEvents] at h
    · exact ⟨h.1, h.2.1, fun _ => rfl⟩
    · exact ⟨h.1, h.2.1, fun hr => absurd hr (by rw [h.2.2]; simp)⟩

theorem mem_removals (p : String) (t : List Event) :
    p ∈ removals t ↔ ∃ r, Event.removeAll p r ∈ t := by
  unfold removals
  rw [List.mem_filterMap]
  constructor
  · rintro ⟨e, he, h⟩
    cases e <;> simp at h
    subst h
    exact ⟨_, he⟩
  · rintro ⟨r, h⟩
    exact ⟨_, h, rfl⟩

theorem mem_links (l : String × String) (t : List Event) :
    l ∈ links t ↔ ∃ r, Event.symlink l.1 l.2 r ∈ t := by
  unfold links
  rw [List.mem_filterMap]
  constructor
  · rintro ⟨e, he, h⟩
    cases e <;> simp at h
    subst h
    exact ⟨_, he⟩
  · rintro ⟨r, h⟩
    exact ⟨_, h, rfl⟩

/-! ### Reading the events of the loop -/

theorem LoopEvents.mem {src dst : String} {es : List DirEntry} {evs : List Event}
    (h : LoopEvents src dst es evs) :
    ∀ ev ∈ evs, ∃ e ∈ es, e.isDir = true ∧
      ∃ o, ev ∈ entryEvents e.name (filepath_Join [src, e.name]) (filepath_Join [dst, e.name]) o := by
  induction h with
  | nil => intro ev hev; cases hev
  | file e es evs _ _ ih =>
    intro ev hev
    obtain ⟨e', he', h'⟩ := ih ev hev
    exact ⟨e', List.mem_cons_of_mem _ he', h'⟩
  | dir e o es evs hd _ ih =>
    intro ev hev
    rcases List.mem_append.1 hev with h1 | h1
    · exact ⟨e, List.mem_cons_self _ _, hd, o, h1⟩
    · obtain ⟨e', he', h'⟩ := ih ev h1
      exact ⟨e', List.mem_cons_of_mem _ he', h'⟩

theorem LoopEvents.lstats_eq {src dst : String} {es : List DirEntry} {evs : List Event}
    (h : LoopEvents src dst es evs) :
    lstats evs = (es.filter (fun e => e.isDir)).map (fun e => filepath_Join [dst, e.name]) := by
  induction h with
  | nil => rfl
  | file e es evs hd _ ih => simp [List.filter_cons, hd, ih]
  | dir e o es evs hd _ ih =>
    have : lstats (entryEvents e.name (filepath_Join [src, e.name]) (filepath_Join [dst, e.name]) o
        ++ evs) = filepath_Join [dst, e.name] :: lstats evs := by
      unfold lstats
      rw [List.filterMap_append]
      exact congrArg (· ++ _) (entryEvents_lstats _ _ _ o)
    simp [List.filter_cons, hd, ih, this]

theorem LoopEvents.handled_eq {src dst : String} {es : List DirEntry} {evs : List Event}
    (h : LoopEvents src dst es evs) :
    handled evs = (es.filter (fun e => e.isDir)).map (fun e => filepath_Join [dst, e.name]) := by
  induction h with
  | nil => rfl
  | file e es evs hd _ ih => simp [List.filter_cons, hd, ih]
  | dir e o es evs hd _ ih =>
    have : handled (entryEvents e.name (filepath_Join [src, e.name]) (filepath_Join [dst, e.name]) o
        ++ evs) = filepath_Join [dst, e.name] :: handled evs := by
      unfold handled
      rw [List.filterMap_append]
      exact congrArg (· ++ _) (entryEvents_handled _ _ _ o)
    simp [List.filter_cons, hd, ih, this]

theorem LoopEvents.exits_eq {src dst : String} {es : List DirEntry} {evs : List Event}
    (h : LoopEvents src dst es evs) : exits evs = [] := by
  induction h with
  | nil => rfl
  | file e es evs _ _ ih => exact ih
  | dir e o es evs _ _ ih => rw [exits_append, entryEvents_exits, ih]; rfl

theorem LoopEvents.commands_eq {src dst : String} {es : List DirEntry} {evs : List Event}
    (h : LoopEvents src dst es evs) : commands evs = [] := by
  induction h with
  | nil => rfl
  | file e es evs _ _ ih => exact ih
  | dir e o es evs _ _ ih => rw [commands_append, entryEvents_commands, ih]; rfl

/-- Every event of the loop sits in the events of one directory entry, with
the events of the entries before it on its left and those of the entries
after it on its right. -/
theorem LoopEvents.split {src dst : String} {es : List DirEntry} {evs : List Event}
    (h : LoopEvents src dst es evs) (a : List Event) (f : Event) (b : List Event)
    (hs : evs = a ++ f :: b) :
    ∃ pre e post o a0 a1 b1 b0, es = pre ++ e :: post ∧ e.isDir = true ∧
      LoopEvents src dst pre a0 ∧ LoopEvents src dst post b0 ∧
      a = a0 ++ a1 ∧ b = b1 ++ b0 ∧
      entryEvents e.name (filepath_Join [src, e.name]) (filepath_Join [dst, e.name]) o =
        a1 ++ f :: b1 := by
  induction h generalizing a with
  | nil => simp at hs
  | file e es evs hd _ ih =>
    obtain ⟨pre, e', post, o, a0, a1, b1, b0, h1, h2, h3, h4, h5, h6, h7⟩ := ih a hs
    exact ⟨e :: pre, e', post, o, a0, a1, b1, b0, by simp [h1], h2, .file e pre a0 hd h3, h4,
      h5, h6, h7⟩
  | dir e o es evs hd hl ih =>
    rcases List.append_eq_append_iff.1 hs with ⟨c, hc1, hc2⟩ | ⟨c, hc1, hc2⟩
    · obtain ⟨pre, e', post, o', a0, a1, b1, b0, h1, h2, h3, h4, h5, h6, h7⟩ := ih c hc2
      refine ⟨e :: pre, e', post, o', _ ++ a0, a1, b1, b0, by simp [h1], h2,
        .dir e o pre a0 hd h3, h4, ?_, h6, h7⟩
      rw [hc1, h5, List.append_assoc]
    · cases c with
      | nil =>
        simp only [List.append_nil] at hc1
        simp only [List.nil_append] at hc2
        obtain ⟨pre, e', post, o', a0, a1, b1, b0, h1, h2, h3, h4, h5, h6, h7⟩ :=
          ih [] hc2.symm
        refine ⟨e :: pre, e', post, o', _ ++ a0, a1, b1, b0, by simp [h1], h2,
          .dir e o pre a0 hd h3, h4, ?_, h6, h7⟩
        rw [← hc1, List.append_assoc, ← h5, List.append_nil]
      | cons g c' =>
        simp only [List.cons_append, List.cons.injEq] at hc2
        obtain ⟨hg, hb⟩ := hc2
        subst hg
        exact ⟨[], e, es, o, [], a, c', evs, rfl, hd, .nil, hl, rfl, hb, hc1⟩

/-- A list cut at an element with a property that no other element has is cut
in one way only. -/
theorem split_unique {α : Type} (P : α → Prop) (p q a b : List α) (f g : α)
    (h : p ++ g :: q = a ++ f :: b) (hf : P f) (hp : ∀ x ∈ p, ¬ P x) (hq : ∀ x ∈ q, ¬ P x) :
    a = p ∧ f = g ∧ b = q := by
  induction p generalizing a with
  | nil =>
    cases a with
    | nil =>
      simp only [List.nil_append, List.cons.injEq] at h
      exact ⟨rfl, h.1.symm, h.2.symm⟩
    | cons x a' =>
      simp only [List.nil_append, List.cons_append, List.cons.injEq] at h
      exact absurd hf (hq f (by rw [h.2]; simp))
  | cons y p' ih =>
    cases a with
    | nil =>
      simp only [List.nil_append, List.cons_append, List.cons.injEq] at h
      exact absurd hf (by rw [← h.1]; exact hp y (List.mem_cons_self _ _))
    | cons x a' =>
      simp only [List.cons_append, List.cons.injEq] at h
      obtain ⟨h1, h2, h3⟩ := ih a' h.2 (fun z hz => hp z (List.mem_cons_of_mem _ hz))
      exact ⟨by rw [h1, h.1], h2, h3⟩

theorem LoopEvents.untouched {src dst : String} {es : List DirEntry} {evs : List Event}
    (h : LoopEvents src dst es evs) (d : String)
    (hd : ∀ e ∈ es, e.isDir = true → filepath_Join [dst, e.name] ≠ d) :
    d ∉ removals evs ∧ ∀ x r, Event.symlink x d r ∉ evs := by
  constructor
  · intro hm
    obtain ⟨r, hr⟩ := (mem_removals d evs).1 hm
    obtain ⟨e, he, hdir, o, ho⟩ := h.mem _ hr
    exact hd e he hdir (entryEvents_removeAll _ _ _ _ _ _ ho).1.symm
  · intro x r hm
    obtain ⟨e, he, hdir, o, ho⟩ := h.mem _ hm
    exact hd e he hdir (entryEvents_symlink _ _ _ _ _ _ _ ho).2.1.symm

theorem wellFormed_split {pre post : List DirEntry} {e : DirEntry}
    (h : wellFormed (pre ++ e :: post)) :
    validName e.name ∧ (∀ e' ∈ pre, validName e'.name ∧ e'.name ≠ e.name) ∧
      (∀ e' ∈ post, validName e'.name ∧ e'.name ≠ e.name) := by
  obtain ⟨hn, hv⟩ := h
  rw [List.map_append, List.map_cons, List.nodup_append] at hn
  obtain ⟨-, h2, h3⟩ := hn
  rw [List.nodup_cons] at h2
  refine ⟨hv e (by simp), ?_, ?_⟩
  · intro e' he'
    refine ⟨hv e' (by simp [he']), fun heq => ?_⟩
    exact h3 (List.mem_map_of_mem (fun e => e.name) he') (by rw [heq]; simp)
  · intro e' he'
    refine ⟨hv e' (by simp [he']), fun heq => ?_⟩
    exact h2.1 (by rw [← heq]; exact List.mem_map_of_mem (fun e => e.name) he')

/-- The run of the loop seen from one directory entry of a well-formed
listing: the entries before it and after it leave its destination alone, so
the entry meets the destination as it was when the loop started, and what the
entry leaves there is still there when the loop ends. -/
theorem linkLoop_focus (env : Env) (src dst : String) (entries : List DirEntry) (w : World)
    (e : DirEntry) (hwf : wellFormed entries) (he : e ∈ entries) (hd : e.isDir = true) :
    ∃ a0 o b0,
      (entries.foldl (linkEntry env src dst) w).trace = w.trace ++ (a0 ++
        (entryEvents e.name (filepath_Join [src, e.name]) (filepath_Join [dst, e.name]) o ++ b0)) ∧
      (o.found = true → (w.fs (filepath_Join [dst, e.name])).isSome = true) ∧
      (o.linked = true → (entries.foldl (linkEntry env src dst) w).fs
        (filepath_Join [dst, e.name]) = some (.symlink (filepath_Join [src, e.name]))) ∧
      (filepath_Join [dst, e.name] ∉ removals a0 ∧
        ∀ x r, Event.symlink x (filepath_Join [dst, e.name]) r ∉ a0) ∧
      (filepath_Join [dst, e.name] ∉ removals b0 ∧
        ∀ x r, Event.symlink x (filepath_Join [dst, e.name]) r ∉ b0) ∧
      filepath_Join [dst, e.name] ∉ lstats a0 ∧ filepath_Join [dst, e.name] ∉ lstats b0 := by
  obtain ⟨pre, post, hsplit⟩ := List.append_of_mem he
  subst hsplit
  obtain ⟨hv, hpre, hpost⟩ := wellFormed_split hwf
  obtain ⟨a0, ha, hla⟩ := linkLoop_events env src dst pre w
  obtain ⟨o, ho, hocc, -, hlink⟩ := linkEntry_dir env src dst (pre.foldl (linkEntry env src dst) w)
    e hd
  obtain ⟨b0, hb, hlb⟩ := linkLoop_events env src dst post
    (linkEntry env src dst (pre.foldl (linkEntry env src dst) w) e)
  have hfpre : (pre.foldl (linkEntry env src dst) w).fs (filepath_Join [dst, e.name]) =
      w.fs (filepath_Join [dst, e.name]) :=
    linkLoop_frame env src dst pre w _ (fun e' he' _ =>
      ⟨filepath_Join_ne dst _ _ hv (hpre e' he').1 (fun h => (hpre e' he').2 h.symm),
        filepath_Join_not_below dst _ _ (hpre e' he').1 hv⟩)
  have hfpost : (post.foldl (linkEntry env src dst)
      (linkEntry env src dst (pre.foldl (linkEntry env src dst) w) e)).fs
        (filepath_Join [dst, e.name]) =
      (linkEntry env src dst (pre.foldl (linkEntry env src dst) w) e).fs
        (filepath_Join [dst, e.name]) :=
    linkLoop_frame env src dst post _ _ (fun e' he' _ =>
      ⟨filepath_Join_ne dst _ _ hv (hpost e' he').1 (fun h => (hpost e' he').2 h.symm),
        filepath_Join_not_below dst _ _ (hpost e' he').1 hv⟩)
  refine ⟨a0, o, b0, ?_, ?_, ?_, ?_, ?_, ?_, ?_⟩
  · rw [List.foldl_append, List.foldl_cons, hb, ho, ha]
    simp only [List.append_assoc]
  · intro h
    rw [← hfpre]
    exact hocc h
  · intro h
    rw [List.foldl_append, List.foldl_cons, hfpost]
    exact hlink h
  · exact hla.untouched _ (fun e' he' _ =>
      filepath_Join_ne dst _ _ (hpre e' he').1 hv (hpre e' he').2)
  · exact hlb.untouched _ (fun e' he' _ =>
      filepath_Join_ne dst _ _ (hpost e' he').1 hv (hpost e' he').2)
  · rw [hla.lstats_eq]
    intro hm
    obtain ⟨e', he', heq⟩ := List.mem_map.1 hm
    exact filepath_Join_ne dst _ _ (hpre e' (List.mem_filter.1 he').1).1 hv
      (hpre e' (List.mem_filter.1 he').1).2 heq
  · rw [hlb.lstats_eq]
    intro hm
    obtain ⟨e', he', heq⟩ := List.mem_map.1 hm
    exact filepath_Join_ne dst _ _ (hpost e' (List.mem_filter.1 he').1).1 hv
      (hpost e' (List.mem_filter.1 he').1).2 heq

/-! ### `linkDotfiles` around its loop -/

theorem atLoop_trace (dotfilesDir configDestDir : String) (w : World) :
    (atLoop dotfilesDir configDestDir w).trace = w.trace ++ linkPrelude dotfilesDir configDestDir := by
  simp [atLoop, atMkdirAll, atReadDir, linkPrelude]

/-- When the listing and the creation of the destination root succeed,
`linkDotfiles` returns the world its loop leaves. -/
theorem linkDotfiles_ok (env : Env) (dotfilesDir configDestDir : String) (w : World)
    (entries : List DirEntry)
    (hread : env.readDir (atReadDir dotfilesDir w) (filepath_Join [dotfilesDir, "config"]) =
      .ok entries)
    (hmk : env.mkdirAll (atMkdirAll dotfilesDir w) configDestDir = none) :
    linkDotfiles env dotfilesDir configDestDir w =
      .returned (entries.foldl (linkEntry env (filepath_Join [dotfilesDir, "config"]) configDestDir)
        (atLoop dotfilesDir configDestDir w)) := by
  unfold linkDotfiles os_ReadDir
  simp only []
  have h1 : env.readDir (fmt_Printf ("Reading configurations from: " ++
      filepath_Join [dotfilesDir, "config"] ++ "\n")
      (fmt_Printf "\n--- Starting Dotfile Symlinking ---\n" w))
      (filepath_Join [dotfilesDir, "config"]) = .ok entries := hread
  rw [h1]
  simp only []
  unfold os_MkdirAll
  have h2 : env.mkdirAll (emit (.readDir (filepath_Join [dotfilesDir, "config"]) none)
      (fmt_Printf ("Reading configurations from: " ++
      filepath_Join [dotfilesDir, "config"] ++ "\n")
      (fmt_Printf "\n--- Starting Dotfile Symlinking ---\n" w))) configDestDir = none := hmk
  rw [h2]
  rfl

/-- The events of a run of `linkDotfiles` that gets past its two root steps. -/
theorem linkDotfiles_run (env : Env) (dotfilesDir configDestDir : String) (w : World)
    (entries : List DirEntry)
    (hread : env.readDir (atReadDir dotfilesDir w) (filepath_Join [dotfilesDir, "config"]) =
      .ok entries)
    (hmk : env.mkdirAll (atMkdirAll dotfilesDir w) configDestDir = none) :
    ∃ w' evs, linkDotfiles env dotfilesDir configDestDir w = .returned w' ∧
      w'.trace = w.trace ++ (linkPrelude dotfilesDir configDestDir ++ evs) ∧
      LoopEvents (filepath_Join [dotfilesDir, "config"]) configDestDir entries evs := by
  obtain ⟨evs, h1, h2⟩ := linkLoop_events env (filepath_Join [dotfilesDir, "config"])
    configDestDir entries (atLoop dotfilesDir configDestDir w)
  refine ⟨_, evs, linkDotfiles_ok env dotfilesDir configDestDir w entries hread hmk, ?_, h2⟩
  rw [h1, atLoop_trace, List.append_assoc]

/-! ### The claims on `linkDotfiles` -/

theorem entryEvents_removals_sublist (name s d : String) (o : Outcome) :
    (removals (entryEvents name s d o)).Sublist [d] := by
  rcases o with _ | ln | ⟨le, ln⟩
  · simp [entryEvents, linkEvents, removals]
  · cases ln <;> simp [entryEvents, linkEvents, removals]
  · cases ln <;> simp [entryEvents, linkEvents, removals]

theorem entryEvents_links_sublist (name s d : String) (o : Outcome) :
    (links (entryEvents name s d o)).Sublist [(s, d)] := by
  rcases o with _ | ln | ⟨le, ln⟩
  · simp [entryEvents, linkEvents, links]
  · cases ln <;> simp [entryEvents, linkEvents, links]
  · cases ln <;> simp [entryEvents, linkEvents, links]

theorem LoopEvents.removals_sublist {src dst : String} {es : List DirEntry} {evs : List Event}
    (h : LoopEvents src dst es evs) :
    (removals evs).Sublist
      ((es.filter (fun e => e.isDir)).map (fun e => filepath_Join [dst, e.name])) := by
  induction h with
  | nil => exact List.Sublist.refl _
  | file e es evs hd _ ih => simpa [List.filter_cons, hd] using ih
  | dir e o es evs hd _ ih =>
    have h1 : removals (entryEvents e.name (filepath_Join [src, e.name])
        (filepath_Join [dst, e.name]) o ++ evs) =
        removals (entryEvents e.name (filepath_Join [src, e.name])
          (filepath_Join [dst, e.name]) o) ++ removals evs := by
      simp [removals]
    rw [h1]
    have h2 := (entryEvents_removals_sublist e.name (filepath_Join [src, e.name])
      (filepath_Join [dst, e.name]) o).append ih
    simpa [List.filter_cons, hd] using h2

theorem LoopEvents.links_sublist {src dst : String} {es : List DirEntry} {evs : List Event}
    (h : LoopEvents src dst es evs) :
    (links evs).Sublist ((es.filter (fun e => e.isDir)).map
      (fun e => (filepath_Join [src, e.name], filepath_Join [dst, e.name]))) := by
  induction h with
  | nil => exact List.Sublist.refl _
  | file e es evs hd _ ih => simpa [List.filter_cons, hd] using ih
  | dir e o es evs hd _ ih =>
    have h1 : links (entryEvents e.name (filepath_Join [src, e.name])
        (filepath_Join [dst, e.name]) o ++ evs) =
        links (entryEvents e.name (filepath_Join [src, e.name])
          (filepath_Join [dst, e.name]) o) ++ links evs := by
      simp [links]
    rw [h1]
    have h2 := (entryEvents_links_sublist e.name (filepath_Join [src, e.name])
      (filepath_Join [dst, e.name]) o).append ih
    simpa [List.filter_cons, hd] using h2

theorem linkPrelude_reads (dotfilesDir configDestDir : String) :
    lstats (linkPrelude dotfilesDir configDestDir) = [] ∧
    removals (linkPrelude dotfilesDir configDestDir) = [] ∧
    links (linkPrelude dotfilesDir configDestDir) = [] ∧
    handled (linkPrelude dotfilesDir configDestDir) = [] ∧
    exits (linkPrelude dotfilesDir configDestDir) = [] ∧
    commands (linkPrelude dotfilesDir configDestDir) = [] := by
  simp [linkPrelude, lstats, removals, links, handled, exits, commands]

/-- C4: for every listing of the source config directory, `linkDotfiles`
examines the destinations of the directory entries, all of them and in listing
order, and of nothing else; every removal and every link it attempts is at the
destination of a directory entry (the attempts are a subsequence of the
directory entries); and in a listing as `os.ReadDir` gives it, the destination
of an entry that is not a directory sees no removal and no link. -/
theorem linkDotfiles_directories_only (env : Env) (dotfilesDir configDestDir : String)
    (w : World) (entries : List DirEntry)
    (hread : env.readDir (atReadDir dotfilesDir w) (filepath_Join [dotfilesDir, "config"]) =
      .ok entries)
    (hmk : env.mkdirAll (atMkdirAll dotfilesDir w) configDestDir = none) :
    ∃ evs, (linkDotfiles env dotfilesDir configDestDir w).world.trace = w.trace ++ evs ∧
      lstats evs = (entries.filter (fun e => e.isDir)).map
        (fun e => filepath_Join [configDestDir, e.name]) ∧
      (removals evs).Sublist ((entries.filter (fun e => e.isDir)).map
        (fun e => filepath_Join [configDestDir, e.name])) ∧
      (links evs).Sublist ((entries.filter (fun e => e.isDir)).map
        (fun e => (filepath_Join [filepath_Join [dotfilesDir, "config"], e.name],
          filepath_Join [configDestDir, e.name]))) ∧
      (wellFormed entries → ∀ e ∈ entries, e.isDir = false →
        filepath_Join [configDestDir, e.name] ∉ removals evs ∧
        ∀ s, (s, filepath_Join [configDestDir, e.name]) ∉ links evs) := by
  obtain ⟨w', evs, hres, htr, hloop⟩ :=
    linkDotfiles_run env dotfilesDir configDestDir w entries hread hmk
  obtain ⟨p1, p2, p3, -, -, -⟩ := linkPrelude_reads dotfilesDir configDestDir
  have hl : lstats (linkPrelude dotfilesDir configDestDir ++ evs) = lstats evs := by
    unfold lstats at p1 ⊢; rw [List.filterMap_append, p1, List.nil_append]
  have hr : removals (linkPrelude dotfilesDir configDestDir ++ evs) = removals evs := by
    unfold removals at p2 ⊢; rw [List.filterMap_append, p2, List.nil_append]
  have hk : links (linkPrelude dotfilesDir configDestDir ++ evs) = links evs := by
    unfold links at p3 ⊢; rw [List.filterMap_append, p3, List.nil_append]
  refine ⟨linkPrelude dotfilesDir configDestDir ++ evs, ?_, ?_, ?_, ?_, ?_⟩
  · rw [hres]; exact htr
  · rw [hl]; exact hloop.lstats_eq
  · rw [hr]; exact hloop.removals_sublist
  · rw [hk]; exact hloop.links_sublist
  · intro hwf e he hfile
    rw [hr, hk]
    have hne : ∀ e' ∈ entries, e'.isDir = true →
        filepath_Join [configDestDir, e'.name] ≠ filepath_Join [configDestDir, e.name] := by
      intro e' he' hdir
      obtain ⟨pre, post, hsplit⟩ := List.append_of_mem he
      subst hsplit
      obtain ⟨hv, hpre, hpost⟩ := wellFormed_split hwf
      rcases List.mem_append.1 he' with h | h
      · exact filepath_Join_ne _ _ _ (hpre e' h).1 hv (hpre e' h).2
      · rcases List.mem_cons.1 h with h | h
        · subst h; rw [hfile] at hdir; cases hdir
        · exact filepath_Join_ne _ _ _ (hpost e' h).1 hv (hpost e' h).2
    obtain ⟨h1, h2⟩ := hloop.untouched _ hne
    refine ⟨h1, fun s hs => ?_⟩
    obtain ⟨r, hr'⟩ := (mem_links _ _).1 hs
    exact h2 s r hr'

/-- C4, the scenario of the spec: with the directories `nvim` and `zsh` and the
plain file `README.md` in the source config directory, links are attempted for
exactly `nvim` and `zsh`. -/
theorem linkDotfiles_directories_only_witness :
    links (linkDotfiles linkEnv "/Users/me/Workspace/dotfiles" "/Users/me/.config"
      homeWorld).world.trace =
      [("/Users/me/Workspace/dotfiles/config/nvim", "/Users/me/.config/nvim"),
        ("/Users/me/Workspace/dotfiles/config/zsh", "/Users/me/.config/zsh")] ∧
    ∃ evs, (linkDotfiles linkEnv "/Users/me/Workspace/dotfiles" "/Users/me/.config"
        homeWorld).world.trace = homeWorld.trace ++ evs ∧
      lstats evs = ["/Users/me/.config/nvim", "/Users/me/.config/zsh"] ∧
      "/Users/me/.config/README.md" ∉ removals evs := by
  refine ⟨by decide, ?_⟩
  obtain ⟨evs, h1, h2, -, -, h5⟩ := linkDotfiles_directories_only linkEnv
    "/Users/me/Workspace/dotfiles" "/Users/me/.config" homeWorld configListing rfl rfl
  exact ⟨evs, h1, h2.trans (by decide),
    (h5 (by decide) ⟨"README.md", false⟩ (by decide) rfl).1⟩

theorem append_split_right {α : Type} (p evs a b : List α) (f : α)
    (h : p ++ evs = a ++ f :: b) (hf : f ∉ p) : ∃ a', a = p ++ a' ∧ evs = a' ++ f :: b := by
  rcases List.append_eq_append_iff.1 h with ⟨c, hc1, hc2⟩ | ⟨c, hc1, hc2⟩
  · exact ⟨c, hc1, hc2⟩
  · cases c with
    | nil =>
      simp only [List.append_nil] at hc1
      simp only [List.nil_append] at hc2
      exact ⟨[], by simp [hc1], hc2.symm⟩
    | cons g c' =>
      simp only [List.cons_append, List.cons.injEq] at hc2
      exact absurd (by rw [hc1, hc2.1]; simp) hf

/-- Where a link attempt sits in the events of its entry: nothing but the
report of its result follows it. -/
theorem entryEvents_split_symlink (name s d x y : String) (r : Option String) (o : Outcome)
    (a1 b1 : List Event) (h : entryEvents name s d o = a1 ++ Event.symlink x y r :: b1) :
    x = s ∧ y = d ∧ lstats b1 = [] ∧ handled b1 = [] := by
  have hmem : Event.symlink x y r ∈ entryEvents name s d o := by rw [h]; simp
  have key : ∀ (p : List Event) (ln : Option String),
      (∀ e ∈ p, ¬ ∃ x y r, e = Event.symlink x y r) →
      p ++ Event.symlink s d ln :: [match ln with
        | some err => Event.log ("  - Error: Failed to link " ++ name ++ ". " ++ err ++ "\n")
        | none => Event.print ("  - Successfully linked " ++ name ++ ".\n")] =
        a1 ++ Event.symlink x y r :: b1 →
      x = s ∧ y = d ∧ lstats b1 = [] ∧ handled b1 = [] := by
    intro p ln hp heq
    obtain ⟨-, h2, h3⟩ := split_unique (fun e => ∃ x y r, e = Event.symlink x y r) p _ a1 b1
      (Event.symlink x y r) (Event.symlink s d ln) heq ⟨x, y, r, rfl⟩ hp
      (by intro e he; rw [List.mem_singleton.1 he]; cases ln <;> simp)
    simp only [Event.symlink.injEq] at h2
    refine ⟨h2.1, h2.2.1, ?_, ?_⟩
    · rw [h3]; cases ln <;> rfl
    · rw [h3]; cases ln <;> rfl
  rcases o with rm | ln | ⟨le, ln⟩
  · simp [entryEvents] at hmem
  · exact key [.print ("Processing " ++ name ++ "...\n"), .lstat d none,
      .print ("  - Removing existing target: " ++ d ++ "\n"), .removeAll d none,
      .print ("  - Linking " ++ s ++ " -> " ++ d ++ "\n")] ln (by simp) h
  · exact key [.print ("Processing " ++ name ++ "...\n"),
      .lstat d (some le),
      .print ("  - Linking " ++ s ++ " -> " ++ d ++ "\n")] ln (by simp) h

/-- Where a failed removal sits in the events of its entry: the warning
follows it, and nothing else. -/
theorem entryEvents_split_removeAll (name s d p err : String) (o : Outcome)
    (a1 b1 : List Event)
    (h : entryEvents name s d o = a1 ++ Event.removeAll p (some err) :: b1) :
    p = d ∧ b1 = [.log ("  - Warning: Failed to remove existing destination " ++ d ++ ". " ++
      err ++ "\n")] ∧ ∀ x y r, Event.symlink x y r ∉ a1 := by
  have hmem : Event.removeAll p (some err) ∈ entryEvents name s d o := by rw [h]; simp
  rcases o with rm | ln | ⟨le, ln⟩
  · obtain ⟨h1, h2, h3⟩ := split_unique (fun e => ∃ x r, e = Event.removeAll x r)
      [.print ("Processing " ++ name ++ "...\n"), .lstat d none,
        .print ("  - Removing existing target: " ++ d ++ "\n")]
      [.log ("  - Warning: Failed to remove existing destination " ++ d ++ ". " ++ rm ++ "\n")]
      a1 b1 (Event.removeAll p (some err)) (Event.removeAll d (some rm)) h ⟨p, _, rfl⟩
      (by simp) (by simp)
    simp only [Event.removeAll.injEq, Option.some.injEq] at h2
    refine ⟨h2.1, by rw [h3, h2.2], ?_⟩
    rw [h1]
    simp
  · exfalso
    obtain ⟨-, h2, -⟩ := split_unique (fun e => ∃ x r, e = Event.removeAll x r)
      [.print ("Processing " ++ name ++ "...\n"), .lstat d none,
        .print ("  - Removing existing target: " ++ d ++ "\n")]
      (linkEvents name s d ln)
      a1 b1 (Event.removeAll p (some err)) (Event.removeAll d none) h ⟨p, _, rfl⟩
      (by simp) (by cases ln <;> simp [linkEvents])
    simp at h2
  · exfalso
    cases ln <;> simp [entryEvents, linkEvents] at hmem

/-- C7: a failed link does not stop `linkDotfiles`.  Whatever the environment
answers (which links fail, which removals fail), a run that gets past its two
root steps returns without terminating the process, examines the destination
of every directory entry in listing order, and deals with each (a link attempt,
or a removal that failed).  In particular, after any failed link attempt the
directory entries that follow in the listing are all examined and dealt with. -/
theorem linkDotfiles_link_failure (env : Env) (dotfilesDir configDestDir : String)
    (w : World) (entries : List DirEntry)
    (hread : env.readDir (atReadDir dotfilesDir w) (filepath_Join [dotfilesDir, "config"]) =
      .ok entries)
    (hmk : env.mkdirAll (atMkdirAll dotfilesDir w) configDestDir = none) :
    ∃ w' evs, linkDotfiles env dotfilesDir configDestDir w = .returned w' ∧
      w'.trace = w.trace ++ evs ∧ exits evs = [] ∧
      lstats evs = (entries.filter (fun e => e.isDir)).map
        (fun e => filepath_Join [configDestDir, e.name]) ∧
      handled evs = (entries.filter (fun e => e.isDir)).map
        (fun e => filepath_Join [configDestDir, e.name]) ∧
      ∀ a x y err b, evs = a ++ Event.symlink x y (some err) :: b →
        ∃ pre e post, entries = pre ++ e :: post ∧ e.isDir = true ∧
          x = filepath_Join [filepath_Join [dotfilesDir, "config"], e.name] ∧
          y = filepath_Join [configDestDir, e.name] ∧
          lstats b = (post.filter (fun e => e.isDir)).map
            (fun e => filepath_Join [configDestDir, e.name]) ∧
          handled b = (post.filter (fun e => e.isDir)).map
            (fun e => filepath_Join [configDestDir, e.name]) := by
  obtain ⟨w', evs, hres, htr, hloop⟩ :=
    linkDotfiles_run env dotfilesDir configDestDir w entries hread hmk
  obtain ⟨p1, -, -, p4, p5, -⟩ := linkPrelude_reads dotfilesDir configDestDir
  refine ⟨w', linkPrelude dotfilesDir configDestDir ++ evs, hres, htr, ?_, ?_, ?_, ?_⟩
  · rw [exits_append, p5, hloop.exits_eq]; rfl
  · unfold lstats at p1 ⊢
    rw [List.filterMap_append, p1, List.nil_append]
    exact hloop.lstats_eq
  · unfold handled at p4 ⊢
    rw [List.filterMap_append, p4, List.nil_append]
    exact hloop.handled_eq
  · intro a x y err b hsplit
    obtain ⟨a', -, ha'⟩ := append_split_right _ _ _ _ _ hsplit (by simp [linkPrelude])
    obtain ⟨pre, e, post, o, a0, a1, b1, b0, h1, h2, -, h4, -, h6, h7⟩ := hloop.split _ _ _ ha'
    obtain ⟨hx, hy, hl, hh⟩ := entryEvents_split_symlink _ _ _ _ _ _ _ _ _ h7
    refine ⟨pre, e, post, h1, h2, hx, hy, ?_, ?_⟩
    · rw [h6, ← h4.lstats_eq]
      unfold lstats at hl ⊢
      rw [List.filterMap_append, hl, List.nil_append]
    · rw [h6, ← h4.handled_eq]
      unfold handled at hh ⊢
      rw [List.filterMap_append, hh, List.nil_append]

/-- C7, a scenario: the link for `nvim` cannot be created; the error is
logged, `zsh`, the directory entry after it, is examined and linked, and the
function returns. -/
theorem linkDotfiles_link_failure_witness :
    (linkDotfiles linkFailEnv "/Users/me/Workspace/dotfiles" "/Users/me/.config"
      emptyWorld).world.trace =
      (startEvents ++ [.lstat "/Users/me/.config/nvim"
          (some "lstat /Users/me/.config/nvim: no such file or directory"),
        .print "  - Linking /Users/me/Workspace/dotfiles/config/nvim -> /Users/me/.config/nvim\n"])
      ++ .symlink "/Users/me/Workspace/dotfiles/config/nvim" "/Users/me/.config/nvim"
          (some "permission denied") ::
        (.log "  - Error: Failed to link nvim. permission denied\n" :: zshEvents) ∧
    ∃ pre e post, configListing = pre ++ e :: post ∧ e.isDir = true ∧
      "/Users/me/.config/nvim" = filepath_Join ["/Users/me/.config", e.name] ∧
      lstats (.log "  - Error: Failed to link nvim. permission denied\n" :: zshEvents) =
        (post.filter (fun e => e.isDir)).map
          (fun e => filepath_Join ["/Users/me/.config", e.name]) := by
  have hT : (linkDotfiles linkFailEnv "/Users/me/Workspace/dotfiles" "/Users/me/.config"
      emptyWorld).world.trace =
      (startEvents ++ [.lstat "/Users/me/.config/nvim"
          (some "lstat /Users/me/.config/nvim: no such file or directory"),
        .print "  - Linking /Users/me/Workspace/dotfiles/config/nvim -> /Users/me/.config/nvim\n"])
      ++ .symlink "/Users/me/Workspace/dotfiles/config/nvim" "/Users/me/.config/nvim"
          (some "permission denied") ::
        (.log "  - Error: Failed to link nvim. permission denied\n" :: zshEvents) := by decide
  refine ⟨hT, ?_⟩
  obtain ⟨w', evs, h1, h2, -, -, -, hpos⟩ := linkDotfiles_link_failure linkFailEnv
    "/Users/me/Workspace/dotfiles" "/Users/me/.config" emptyWorld configListing rfl rfl
  rw [h1] at hT
  obtain ⟨pre, e, post, k1, k2, -, k4, k5, -⟩ :=
    hpos _ _ _ _ _ ((List.nil_append evs).symm.trans (h2.symm.trans hT))
  exact ⟨pre, e, post, k1, k2, k4, k5⟩

/-- C8: when the removal of an occupied destination fails, `linkDotfiles` logs
the warning and goes on to the next entry: the events after the failed removal
are the warning and then the processing of the directory entries that follow
in the listing, all of them; and in a listing as `os.ReadDir` gives it no link
is attempted at that destination at any point of the run. -/
theorem linkDotfiles_removal_failure (env : Env) (dotfilesDir configDestDir : String)
    (w : World) (entries : List DirEntry)
    (hread : env.readDir (atReadDir dotfilesDir w) (filepath_Join [dotfilesDir, "config"]) =
      .ok entries)
    (hmk : env.mkdirAll (atMkdirAll dotfilesDir w) configDestDir = none) :
    ∃ w' evs, linkDotfiles env dotfilesDir configDestDir w = .returned w' ∧
      w'.trace = w.trace ++ evs ∧
      ∀ a d err b, evs = a ++ Event.removeAll d (some err) :: b →
        ∃ pre e post b', entries = pre ++ e :: post ∧ e.isDir = true ∧
          d = filepath_Join [configDestDir, e.name] ∧
          b = .log ("  - Warning: Failed to remove existing destination " ++ d ++ ". " ++
            err ++ "\n") :: b' ∧
          lstats b' = (post.filter (fun e => e.isDir)).map
            (fun e => filepath_Join [configDestDir, e.name]) ∧
          handled b' = (post.filter (fun e => e.isDir)).map
            (fun e => filepath_Join [configDestDir, e.name]) ∧
          (wellFormed entries → ∀ x r, Event.symlink x d r ∉ evs) := by
  obtain ⟨w', evs, hres, htr, hloop⟩ :=
    linkDotfiles_run env dotfilesDir configDestDir w entries hread hmk
  refine ⟨w', linkPrelude dotfilesDir configDestDir ++ evs, hres, htr, ?_⟩
  intro a d err b hsplit
  obtain ⟨a', haa, ha'⟩ := append_split_right _ _ _ _ _ hsplit (by simp [linkPrelude])
  obtain ⟨pre, e, post, o, a0, a1, b1, b0, h1, h2, h3, h4, h5, h6, h7⟩ := hloop.split _ _ _ ha'
  obtain ⟨hp, hb1, hno⟩ := entryEvents_split_removeAll _ _ _ _ _ _ _ _ h7
  refine ⟨pre, e, post, b0, h1, h2, hp, ?_, h4.lstats_eq, h4.handled_eq, ?_⟩
  · rw [h6, hb1, hp]; rfl
  · intro hwf x r hmem
    rw [h1] at hwf
    obtain ⟨hv, hpre, hpost⟩ := wellFormed_split hwf
    rw [ha', h5, h6, hb1] at hmem
    have hA := h3.untouched d (fun e' he' _ => by
      rw [hp]; exact filepath_Join_ne _ _ _ (hpre e' he').1 hv (hpre e' he').2)
    have hB := h4.untouched d (fun e' he' _ => by
      rw [hp]; exact filepath_Join_ne _ _ _ (hpost e' he').1 hv (hpost e' he').2)
    rcases List.mem_append.1 hmem with hm | hm
    · simp [linkPrelude] at hm
    · rcases List.mem_append.1 hm with hm | hm
      · rcases List.mem_append.1 hm with hm | hm
        · exact hA.2 x r hm
        · exact hno x d r hm
      · rcases List.mem_cons.1 hm with hm | hm
        · cases hm
        · rcases List.mem_append.1 hm with hm | hm
          · simp at hm
          · exact hB.2 x r hm

/-- C8, a scenario: the regular file at `~/.config/nvim` cannot be removed; the
warning is logged, no link is attempted there at any point of the run, and
`zsh` is linked. -/
theorem linkDotfiles_removal_failure_witness :
    (linkDotfiles removeFailEnv "/Users/me/Workspace/dotfiles" "/Users/me/.config"
      homeWorld).world.trace =
      (startEvents ++ [.lstat "/Users/me/.config/nvim" none,
        .print "  - Removing existing target: /Users/me/.config/nvim\n"]) ++
      .removeAll "/Users/me/.config/nvim" (some "permission denied") ::
        (.log ("  - Warning: Failed to remove existing destination /Users/me/.config/nvim. " ++
          "permission denied\n") :: zshEvents) ∧
    ∀ x r, Event.symlink x "/Users/me/.config/nvim" r ∉
      (linkDotfiles removeFailEnv "/Users/me/Workspace/dotfiles" "/Users/me/.config"
        homeWorld).world.trace := by
  have hT : (linkDotfiles removeFailEnv "/Users/me/Workspace/dotfiles" "/Users/me/.config"
      homeWorld).world.trace =
      (startEvents ++ [.lstat "/Users/me/.config/nvim" none,
        .print "  - Removing existing target: /Users/me/.config/nvim\n"]) ++
      .removeAll "/Users/me/.config/nvim" (some "permission denied") ::
        (.log ("  - Warning: Failed to remove existing destination /Users/me/.config/nvim. " ++
          "permission denied\n") :: zshEvents) := by decide
  refine ⟨hT, ?_⟩
  obtain ⟨w', evs, h1, h2, hpos⟩ := linkDotfiles_removal_failure removeFailEnv
    "/Users/me/Workspace/dotfiles" "/Users/me/.config" homeWorld configListing rfl rfl
  have hw : (linkDotfiles removeFailEnv "/Users/me/Workspace/dotfiles" "/Users/me/.config"
      homeWorld).world.trace = evs := by
    rw [h1]; exact h2.trans (List.nil_append evs)
  rw [hw] at hT ⊢
  obtain ⟨pre, e, post, b', -, -, -, -, -, -, k7⟩ := hpos _ _ _ _ hT
  exact k7 (by decide)

/-- C6: in a listing as `os.ReadDir` gives it, every directory entry whose
link was created during a run of `linkDotfiles` has, in the filesystem the run
leaves, a symbolic link at its destination whose target is its source
directory: the entries processed afterwards do not remove or replace it. -/
theorem linkDotfiles_links_persist (env : Env) (dotfilesDir configDestDir : String)
    (w : World) (entries : List DirEntry)
    (hread : env.readDir (atReadDir dotfilesDir w) (filepath_Join [dotfilesDir, "config"]) =
      .ok entries)
    (hmk : env.mkdirAll (atMkdirAll dotfilesDir w) configDestDir = none)
    (hwf : wellFormed entries) (e : DirEntry) (he : e ∈ entries) (hd : e.isDir = true) :
    ∃ w' evs, linkDotfiles env dotfilesDir configDestDir w = .returned w' ∧
      w'.trace = w.trace ++ evs ∧
      (Event.symlink (filepath_Join [filepath_Join [dotfilesDir, "config"], e.name])
          (filepath_Join [configDestDir, e.name]) none ∈ evs →
        w'.fs (filepath_Join [configDestDir, e.name]) =
          some (.symlink (filepath_Join [filepath_Join [dotfilesDir, "config"], e.name]))) := by
  obtain ⟨a0, o, b0, htr, -, hlink, ⟨-, hsa⟩, ⟨-, hsb⟩, -, -⟩ :=
    linkLoop_focus env (filepath_Join [dotfilesDir, "config"]) configDestDir entries
      (atLoop dotfilesDir configDestDir w) e hwf he hd
  rw [atLoop_trace] at htr
  refine ⟨_, linkPrelude dotfilesDir configDestDir ++ (a0 ++ (entryEvents e.name
    (filepath_Join [filepath_Join [dotfilesDir, "config"], e.name])
    (filepath_Join [configDestDir, e.name]) o ++ b0)),
    linkDotfiles_ok env dotfilesDir configDestDir w entries hread hmk, ?_, ?_⟩
  · rw [htr, List.append_assoc]
  · intro hm
    apply hlink
    rcases List.mem_append.1 hm with hm | hm
    · simp [linkPrelude] at hm
    · rcases List.mem_append.1 hm with hm | hm
      · exact absurd hm (hsa _ _)
      · rcases List.mem_append.1 hm with hm | hm
        · exact (entryEvents_symlink _ _ _ _ _ _ _ hm).2.2 rfl
        · exact absurd hm (hsb _ _)

/-- C6, a scenario: after the run both links are in place, the one for `nvim`
(created first, where a regular file was) and the one for `zsh`. -/
theorem linkDotfiles_links_persist_witness :
    (linkDotfiles linkEnv "/Users/me/Workspace/dotfiles" "/Users/me/.config"
        homeWorld).world.fs "/Users/me/.config/nvim" =
      some (.symlink "/Users/me/Workspace/dotfiles/config/nvim") ∧
    (linkDotfiles linkEnv "/Users/me/Workspace/dotfiles" "/Users/me/.config"
        homeWorld).world.fs "/Users/me/.config/zsh" =
      some (.symlink "/Users/me/Workspace/dotfiles/config/zsh") := by
  have hT : (linkDotfiles linkEnv "/Users/me/Workspace/dotfiles" "/Users/me/.config"
      homeWorld).world.trace =
      (startEvents ++ [.lstat "/Users/me/.config/nvim" none,
        .print "  - Removing existing target: /Users/me/.config/nvim\n"]) ++
      .removeAll "/Users/me/.config/nvim" none ::
      ([.print "  - Linking /Users/me/Workspace/dotfiles/config/nvim -> /Users/me/.config/nvim\n",
        .symlink "/Users/me/Workspace/dotfiles/config/nvim" "/Users/me/.config/nvim" none,
        .print "  - Successfully linked nvim.\n"] ++ zshEvents) := by decide
  constructor
  · obtain ⟨w', evs, h1, h2, h3⟩ := linkDotfiles_links_persist linkEnv
      "/Users/me/Workspace/dotfiles" "/Users/me/.config" homeWorld configListing rfl rfl
      (by decide) ⟨"nvim", true⟩ (by decide) rfl
    rw [h1] at hT ⊢
    have hevs : evs = _ := (List.nil_append evs).symm.trans (h2.symm.trans hT)
    exact h3 (by rw [hevs]; decide)
  · obtain ⟨w', evs, h1, h2, h3⟩ := linkDotfiles_links_persist linkEnv
      "/Users/me/Workspace/dotfiles" "/Users/me/.config" homeWorld configListing rfl rfl
      (by decide) ⟨"zsh", true⟩ (by decide) rfl
    rw [h1] at hT ⊢
    have hevs : evs = _ := (List.nil_append evs).symm.trans (h2.symm.trans hT)
    exact h3 (by rw [hevs]; decide)

theorem linkDotfiles_unreadable (env : Env) (dotfilesDir configDestDir : String) (w : World)
    (err : String)
    (hread : env.readDir (atReadDir dotfilesDir w) (filepath_Join [dotfilesDir, "config"]) =
      .error err) :
    linkDotfiles env dotfilesDir configDestDir w =
      log_Fatalf ("Error: Could not read config source directory " ++
        filepath_Join [dotfilesDir, "config"] ++ ". " ++ err)
        (emit (.readDir (filepath_Join [dotfilesDir, "config"]) (some err))
          (atReadDir dotfilesDir w)) := by
  unfold linkDotfiles os_ReadDir
  simp only []
  have h1 : env.readDir (fmt_Printf ("Reading configurations from: " ++
      filepath_Join [dotfilesDir, "config"] ++ "\n")
      (fmt_Printf "\n--- Starting Dotfile Symlinking ---\n" w))
      (filepath_Join [dotfilesDir, "config"]) = .error err := hread
  rw [h1]
  rfl

theorem linkDotfiles_no_root (env : Env) (dotfilesDir configDestDir : String) (w : World)
    (entries : List DirEntry) (err : String) (made : String → Bool)
    (hread : env.readDir (atReadDir dotfilesDir w) (filepath_Join [dotfilesDir, "config"]) =
      .ok entries)
    (hmk : env.mkdirAll (atMkdirAll dotfilesDir w) configDestDir = some (err, made)) :
    linkDotfiles env dotfilesDir configDestDir w =
      log_Fatalf ("Error: Could not create destination ~/.config directory. " ++ err)
        (emit (.mkdirAll configDestDir (some err))
          { atMkdirAll dotfilesDir w with fs := makeSome configDestDir made w.fs }) := by
  unfold linkDotfiles os_ReadDir
  simp only []
  have h1 : env.readDir (fmt_Printf ("Reading configurations from: " ++
      filepath_Join [dotfilesDir, "config"] ++ "\n")
      (fmt_Printf "\n--- Starting Dotfile Symlinking ---\n" w))
      (filepath_Join [dotfilesDir, "config"]) = .ok entries := hread
  rw [h1]
  simp only []
  unfold os_MkdirAll
  have h2 : env.mkdirAll (emit (.readDir (filepath_Join [dotfilesDir, "config"]) none)
      (fmt_Printf ("Reading configurations from: " ++
      filepath_Join [dotfilesDir, "config"] ++ "\n")
      (fmt_Printf "\n--- Starting Dotfile Symlinking ---\n" w))) configDestDir =
      some (err, made) := hmk
  rw [h2]
  rfl

/-- C9: `linkDotfiles` terminates the process exactly on its two root
failures.  If the source config directory cannot be read, the process exits
with status 1 after the two announcements, the failed listing and the error
message: the filesystem is as it was, the destination root is not created,
nothing is removed, nothing is linked.  If the destination root cannot be
created, the process exits with status 1 after the failed `MkdirAll` and the
error message: no removal and no link is issued.  When both root steps
succeed the function returns, whatever removals and links fail, and the
process is not terminated. -/
theorem linkDotfiles_fatal (env : Env) (dotfilesDir configDestDir : String) (w : World) :
    (∀ err, env.readDir (atReadDir dotfilesDir w) (filepath_Join [dotfilesDir, "config"]) =
        .error err →
      ∃ w', linkDotfiles env dotfilesDir configDestDir w = .exited 1 w' ∧ w'.fs = w.fs ∧
        w'.trace = w.trace ++ [.print "\n--- Starting Dotfile Symlinking ---\n",
          .print ("Reading configurations from: " ++ filepath_Join [dotfilesDir, "config"] ++
            "\n"),
          .readDir (filepath_Join [dotfilesDir, "config"]) (some err),
          .log ("Error: Could not read config source directory " ++
            filepath_Join [dotfilesDir, "config"] ++ ". " ++ err),
          .exit 1]) ∧
    (∀ entries err made,
      env.readDir (atReadDir dotfilesDir w) (filepath_Join [dotfilesDir, "config"]) =
        .ok entries →
      env.mkdirAll (atMkdirAll dotfilesDir w) configDestDir = some (err, made) →
      ∃ w', linkDotfiles env dotfilesDir configDestDir w = .exited 1 w' ∧
        w'.trace = w.trace ++ [.print "\n--- Starting Dotfile Symlinking ---\n",
          .print ("Reading configurations from: " ++ filepath_Join [dotfilesDir, "config"] ++
            "\n"),
          .readDir (filepath_Join [dotfilesDir, "config"]) none,
          .mkdirAll configDestDir (some err),
          .log ("Error: Could not create destination ~/.config directory. " ++ err),
          .exit 1]) ∧
    (∀ entries,
      env.readDir (atReadDir dotfilesDir w) (filepath_Join [dotfilesDir, "config"]) =
        .ok entries →
      env.mkdirAll (atMkdirAll dotfilesDir w) configDestDir = none →
      ∃ w', linkDotfiles env dotfilesDir configDestDir w = .returned w' ∧
        exits w'.trace = exits w.trace) := by
  refine ⟨?_, ?_, ?_⟩
  · intro err hread
    refine ⟨_, linkDotfiles_unreadable env dotfilesDir configDestDir w err hread, rfl, ?_⟩
    simp [atReadDir]
  · intro entries err made hread hmk
    refine ⟨_, linkDotfiles_no_root env dotfilesDir configDestDir w entries err made hread hmk,
      ?_⟩
    simp [atMkdirAll, atReadDir]
  · intro entries hread hmk
    obtain ⟨w', evs, hres, htr, hloop⟩ :=
      linkDotfiles_run env dotfilesDir configDestDir w entries hread hmk
    refine ⟨w', hres, ?_⟩
    rw [htr, exits_append, exits_append, hloop.exits_eq,
      (linkPrelude_reads dotfilesDir configDestDir).2.2.2.2.1]
    simp

/-- C9, three scenarios: an unreadable source directory and a destination root
that cannot be created both end the process with status 1 and without any
removal or link; a link that fails does not. -/
theorem linkDotfiles_fatal_witness :
    (∃ w', linkDotfiles unreadableEnv "/Users/me/Workspace/dotfiles" "/Users/me/.config"
        homeWorld = .exited 1 w' ∧ w'.fs = homeWorld.fs ∧
      w'.trace = homeWorld.trace ++ [.print "\n--- Starting Dotfile Symlinking ---\n",
        .print "Reading configurations from: /Users/me/Workspace/dotfiles/config\n",
        .readDir "/Users/me/Workspace/dotfiles/config" (some "permission denied"),
        .log ("Error: Could not read config source directory " ++
          "/Users/me/Workspace/dotfiles/config. permission denied"),
        .exit 1]) ∧
    (∃ w', linkDotfiles noRootEnv "/Users/me/Workspace/dotfiles" "/Users/me/.config"
        homeWorld = .exited 1 w' ∧
      w'.trace = homeWorld.trace ++ [.print "\n--- Starting Dotfile Symlinking ---\n",
        .print "Reading configurations from: /Users/me/Workspace/dotfiles/config\n",
        .readDir "/Users/me/Workspace/dotfiles/config" none,
        .mkdirAll "/Users/me/.config" (some "read-only file system"),
        .log "Error: Could not create destination ~/.config directory. read-only file system",
        .exit 1]) ∧
    (∃ w', linkDotfiles linkFailEnv "/Users/me/Workspace/dotfiles" "/Users/me/.config"
        homeWorld = .returned w' ∧ exits w'.trace = exits homeWorld.trace) :=
  ⟨(linkDotfiles_fatal unreadableEnv "/Users/me/Workspace/dotfiles" "/Users/me/.config"
      homeWorld).1 "permission denied" rfl,
    (linkDotfiles_fatal noRootEnv "/Users/me/Workspace/dotfiles" "/Users/me/.config"
      homeWorld).2.1 configListing "read-only file system" (fun _ => false) rfl rfl,
    (linkDotfiles_fatal linkFailEnv "/Users/me/Workspace/dotfiles" "/Users/me/.config"
      homeWorld).2.2 configListing rfl rfl⟩

/-! ### The claim on `main` -/

theorem linkDotfiles_commands (env : Env) (dotfilesDir configDestDir : String) (w : World) :
    commands (linkDotfiles env dotfilesDir configDestDir w).world.trace = commands w.trace := by
  cases hread : env.readDir (atReadDir dotfilesDir w) (filepath_Join [dotfilesDir, "config"]) with
  | error err =>
    rw [linkDotfiles_unreadable env dotfilesDir configDestDir w err hread]
    simp [log_Fatalf, Result.world, atReadDir, commands]
  | ok entries =>
    cases hmk : env.mkdirAll (atMkdirAll dotfilesDir w) configDestDir with
    | some em =>
      obtain ⟨err, made⟩ := em
      rw [linkDotfiles_no_root env dotfilesDir configDestDir w entries err made hread hmk]
      simp [log_Fatalf, Result.world, atMkdirAll, atReadDir, commands]
    | none =>
      obtain ⟨w', evs, hres, htr, hloop⟩ :=
        linkDotfiles_run env dotfilesDir configDestDir w entries hread hmk
      rw [hres]
      show commands w'.trace = _
      rw [htr, commands_append, commands_append, hloop.commands_eq,
        (linkPrelude_reads dotfilesDir configDestDir).2.2.2.2.2]
      simp

theorem complete_commands (r : Result) :
    commands (complete r).world.trace = commands r.world.trace := by
  cases r with
  | returned w => simp [complete, Result.world, commands]
  | exited c w => rfl

/-- C10: a run of `main` whose home directory resolves to `H`.  If `brew` is
not found on the search path, two warnings are logged, the next thing `main`
does is run `linkDotfiles`, and the whole run issues no command.  If `brew` is
found, `main` runs `installBrewPackages` on `brew_formulae.txt` with the cask
flag unset, then on `brew_casks.txt` with the cask flag set, and runs
`linkDotfiles` in the world the second call leaves; the linker issues no
command of its own.  In both cases the linker gets the source root
`H/Workspace/dotfiles` and the destination root `H/.config`, as `filepath.Join`
forms them; for a cleaned `H` these and the two list files are `H` followed by
the literal texts. -/
theorem main_order (env : Env) (w : World) (H : String) (hH : env.userHomeDir w = .ok H) :
    (∀ err, env.lookPath (emit (.userHomeDir none) w) "brew" = .error err →
      main env w = complete (linkDotfiles env (filepath_Join [H, "Workspace", "dotfiles"])
        (filepath_Join [H, ".config"])
        (log_Printf "Please install Homebrew first by visiting https://brew.sh/"
          (log_Printf
            "Warning: Homebrew command 'brew' not found in PATH. Skipping all package installations."
            (emit (.lookPath "brew" (some err)) (emit (.userHomeDir none) w))))) ∧
      commands (main env w).world.trace = commands w.trace) ∧
    (∀ p, env.lookPath (emit (.userHomeDir none) w) "brew" = .ok p →
      main env w = complete (linkDotfiles env (filepath_Join [H, "Workspace", "dotfiles"])
        (filepath_Join [H, ".config"])
        (installBrewPackages env
          (filepath_Join [filepath_Join [H, "Workspace", "dotfiles"], "brew_casks.txt"]) true
          (installBrewPackages env
            (filepath_Join [filepath_Join [H, "Workspace", "dotfiles"], "brew_formulae.txt"]) false
            (emit (.lookPath "brew" none) (emit (.userHomeDir none) w))))) ∧
      commands (main env w).world.trace = commands (installBrewPackages env
          (filepath_Join [filepath_Join [H, "Workspace", "dotfiles"], "brew_casks.txt"]) true
          (installBrewPackages env
            (filepath_Join [filepath_Join [H, "Workspace", "dotfiles"], "brew_formulae.txt"]) false
            (emit (.lookPath "brew" none) (emit (.userHomeDir none) w)))).trace) ∧
    (cleanPath H →
      filepath_Join [H, "Workspace", "dotfiles"] = H ++ "/Workspace/dotfiles" ∧
      filepath_Join [H, ".config"] = H ++ "/.config" ∧
      filepath_Join [filepath_Join [H, "Workspace", "dotfiles"], "brew_formulae.txt"] =
        H ++ "/Workspace/dotfiles/brew_formulae.txt" ∧
      filepath_Join [filepath_Join [H, "Workspace", "dotfiles"], "brew_casks.txt"] =
        H ++ "/Workspace/dotfiles/brew_casks.txt") := by
  refine ⟨?_, ?_, ?_⟩
  · intro err hl
    have hm : main env w = complete (linkDotfiles env (filepath_Join [H, "Workspace", "dotfiles"])
        (filepath_Join [H, ".config"])
        (log_Printf "Please install Homebrew first by visiting https://brew.sh/"
          (log_Printf
            "Warning: Homebrew command 'brew' not found in PATH. Skipping all package installations."
            (emit (.lookPath "brew" (some err)) (emit (.userHomeDir none) w))))) := by
      unfold main os_UserHomeDir
      simp only [hH]
      unfold exec_LookPath
      simp only [hl]
      rfl
    refine ⟨hm, ?_⟩
    rw [hm, complete_commands, linkDotfiles_commands]
    simp [commands]
  · intro p hl
    have hm : main env w = complete (linkDotfiles env (filepath_Join [H, "Workspace", "dotfiles"])
        (filepath_Join [H, ".config"])
        (installBrewPackages env
          (filepath_Join [filepath_Join [H, "Workspace", "dotfiles"], "brew_casks.txt"]) true
          (installBrewPackages env
            (filepath_Join [filepath_Join [H, "Workspace", "dotfiles"], "brew_formulae.txt"]) false
            (emit (.lookPath "brew" none) (emit (.userHomeDir none) w))))) := by
      unfold main os_UserHomeDir
      simp only [hH]
      unfold exec_LookPath
      simp only [hl]
      rfl
    refine ⟨hm, ?_⟩
    rw [hm, complete_commands, linkDotfiles_commands]
  · intro hc
    have h1 : filepath_Join [H, "Workspace", "dotfiles"] = H ++ "/Workspace/dotfiles" := by
      rw [filepath_Join_three H "Workspace" "dotfiles" hc (by decide) (by decide)]
      apply String.ext; simp
    have hc1 : cleanPath (H ++ "/Workspace/dotfiles") := by
      have := cleanPath_join _ "dotfiles" (cleanPath_join H "Workspace" hc (by decide))
        (by decide)
      have e : H ++ "/" ++ "Workspace" ++ "/" ++ "dotfiles" = H ++ "/Workspace/dotfiles" := by
        apply String.ext; simp
      rwa [e] at this
    refine ⟨h1, ?_, ?_, ?_⟩
    · rw [filepath_Join_clean H ".config" hc (by decide)]
      apply String.ext; simp
    · rw [h1, filepath_Join_clean _ "brew_formulae.txt" hc1 (by decide)]
      apply String.ext; simp
    · rw [h1, filepath_Join_clean _ "brew_casks.txt" hc1 (by decide)]
      apply String.ext; simp

/-- C10, two scenarios with home directory `/Users/me`: with `brew` on the
search path the run installs `git` and `wget` from the formula list, finds no
cask list, and then links; without `brew` it issues no command and links. -/
theorem main_order_witness :
    (main brewEnv emptyWorld).world.trace =
      [.userHomeDir none, .lookPath "brew" none,
        .openFile "/Users/me/Workspace/dotfiles/brew_formulae.txt" none,
        .print "\n--- Installing Homebrew formulas ---\n",
        .print "\nInstalling formula: git\n",
        .run "brew" ["install", "git"] (some "exit status 1"),
        .log "Error installing git. It may already be installed or there was another issue.",
        .print "\nInstalling formula: wget\n",
        .run "brew" ["install", "wget"] none,
        .closeFile "/Users/me/Workspace/dotfiles/brew_formulae.txt",
        .openFile "/Users/me/Workspace/dotfiles/brew_casks.txt" (some "no such file or directory"),
        .log ("Warning: Could not open package list /Users/me/Workspace/dotfiles/brew_casks.txt: " ++
          "no such file or directory. Skipping."),
        .print "\n--- Starting Dotfile Symlinking ---\n",
        .print "Reading configurations from: /Users/me/Workspace/dotfiles/config\n",
        .readDir "/Users/me/Workspace/dotfiles/config" none,
        .mkdirAll "/Users/me/.config" none,
        .print "\n--- Restore Script Complete ---\n"] ∧
    commands (main noBrewEnv emptyWorld).world.trace = commands emptyWorld.trace ∧
    commands (main brewEnv emptyWorld).world.trace =
      [("brew", ["install", "git"]), ("brew", ["install", "wget"])] ∧
    filepath_Join [filepath_Join ["/Users/me", "Workspace", "dotfiles"], "brew_casks.txt"] =
      "/Users/me" ++ "/Workspace/dotfiles/brew_casks.txt" :=
  ⟨by decide,
    ((main_order noBrewEnv emptyWorld "/Users/me" rfl).1
      "executable file not found in $PATH" rfl).2,
    ((main_order brewEnv emptyWorld "/Users/me" rfl).2.1 "/opt/homebrew/bin/brew" rfl).2.trans
      (by decide),
    ((main_order brewEnv emptyWorld "/Users/me" rfl).2.2 (by decide)).2.2.2⟩

end Restore
